import Mathlib

/-!
# Verification of the `data_collection` tile loading / export scripts

This file gives a shallow embedding, in Lean 4, of the pure logic of the
three Python scripts of the repository:

* `automated_loading_batch.py` — loads a tree of histology tiles and class
  masks, pads and stacks them into volumes, and records a slice-to-tile
  mapping in each volume's description field;
* `export_segmentations.py` — parses that mapping back, crops away the
  stacking padding and writes binary per-tile masks;
* `automated_loading.py` — a fixed-path variant of the loader.

Strings are embedded as `List Char`; Python `str.strip`, `str.splitlines`,
`str.split(sep, 1)`, `str.startswith` are translated below.  NumPy arrays
are embedded as nested lists of `Nat` (2-D, 3-D and 4-D), with dtype casts
written as explicit `% 256`.  The effectful parts of the scripts (Slicer
API calls, file I/O) are modelled by passing their observable results in
as parameters, and by explicit event traces for warnings and errors.
-/

namespace DataCollection

/-! ## Character classes

`isPySpaceB` models the whitespace set stripped by Python `str.strip()`
(restricted to the ASCII/Latin-1 range plus U+0085; further Unicode
space characters are outside this model).  `isLineBreakB` models the
line-boundary characters of Python `str.splitlines()`. -/
def isPySpaceB (c : Char) : Bool :=
  c == ' ' || c == '\t' || c == '\n' || c == '\r' || c == '\x0b' ||
  c == '\x0c' || c == '\x1c' || c == '\x1d' || c == '\x1e' ||
  c == '\x1f' || c == '\x85' || c == '\xa0'

def isLineBreakB (c : Char) : Bool :=
  c == '\n' || c == '\r' || c == '\x0b' || c == '\x0c' || c == '\x1c' ||
  c == '\x1d' || c == '\x1e' || c == '\x85' || c == '\u2028' || c == '\u2029'

/-! ## Basic string helpers -/
/-- The test `startsWithL pat s` is Python's `s.startswith(pat)`. -/
def startsWithL : List Char → List Char → Bool
  | [], _ => true
  | _ :: _, [] => false
  | p :: ps, c :: cs => p == c && startsWithL ps cs

/-- The test `endsWithL pat s` is Python's `s.endswith(pat)`. -/
def endsWithL (pat s : List Char) : Bool :=
  startsWithL pat.reverse s.reverse

/-- Strip trailing model-whitespace (Python `str.rstrip()`). -/
def rstripW (l : List Char) : List Char :=
  (List.dropWhile isPySpaceB l.reverse).reverse

/-- Python `str.strip()`: drop leading and trailing whitespace. -/
def pystrip (l : List Char) : List Char :=
  rstripW (List.dropWhile isPySpaceB l)

/-- Worker for `splitlines`: `cur` is the portion of the current line read
so far; `afterCR` records that the previous character was a `'\r'` break,
whose immediately following `'\n'` belongs to the same break. -/
def splitlinesGo (cur : List Char) (afterCR : Bool) :
    List Char → List (List Char)
  | [] => if cur = [] then [] else [cur]
  | c :: rest =>
    if afterCR && c == '\n' then splitlinesGo cur false rest
    else if isLineBreakB c then cur :: splitlinesGo [] (c == '\r') rest
    else splitlinesGo (cur ++ [c]) false rest

/-- Python `str.splitlines()`. -/
def splitlines (s : List Char) : List (List Char) :=
  splitlinesGo [] false s

/-- Python `s.split(sep, 1)`, returning `none` when `sep` does not occur
(the length-1 result list) and the two parts otherwise. -/
def splitOnce (sep : List Char) : List Char → Option (List Char × List Char)
  | [] => none
  | c :: cs =>
    if startsWithL sep (c :: cs) then some ([], (c :: cs).drop sep.length)
    else
      match splitOnce sep cs with
      | some (l, r) => some (c :: l, r)
      | none => none

/-! ## Decimal rendering of slice indices (Python `str(i)` inside the
f-string `f"Slice {i}: {name}"`). -/
def digitChar (d : Nat) : Char :=
  match d with
  | 0 => '0' | 1 => '1' | 2 => '2' | 3 => '3' | 4 => '4'
  | 5 => '5' | 6 => '6' | 7 => '7' | 8 => '8' | _ => '9'

/-- Fuel-indexed worker for decimal rendering; `fuel = n + 1` always
suffices since the argument shrinks by a factor of ten each step. -/
def natToDigitsGo : Nat → Nat → List Char
  | 0, _ => []
  | fuel + 1, n =>
    if n < 10 then [digitChar n]
    else natToDigitsGo fuel (n / 10) ++ [digitChar (n % 10)]

def natToDigits (n : Nat) : List Char :=
  natToDigitsGo (n + 1) n

/-! ## The slice-to-tile mapping

Writer side (`automated_loading_batch.py`, `main`, phase 2):
`"\n".join(f"Slice {i}: {name}" for i, name in enumerate(tile_names))`.
Reader side (`export_segmentations.py`): `parse_tile_mapping`. -/
def slicePre : List Char := ['S', 'l', 'i', 'c', 'e', ' ']

def colonSp : List Char := [':', ' ']

/-- One line of the mapping: `f"Slice {i}: {name}"`. -/
def sliceLine (i : Nat) (name : List Char) : List Char :=
  slicePre ++ natToDigits i ++ colonSp ++ name

/-- The enumerated mapping lines, starting at index `i0`
(`enumerate(tile_names)` starts at 0). -/
def mappingLines (i0 : Nat) : List (List Char) → List (List Char)
  | [] => []
  | n :: ns => sliceLine i0 n :: mappingLines (i0 + 1) ns

/-- Python's `"\n".join(lines)`. -/
def joinNl : List (List Char) → List Char
  | [] => []
  | [l] => l
  | l :: ls => l ++ '\n' :: joinNl ls

/-- The description string stored on a stacked volume
(`volume_node.SetDescription(mapping)` in `automated_loading_batch.py`). -/
def writeMapping (names : List (List Char)) : List Char :=
  joinNl (mappingLines 0 names)

/-- One iteration of the loop body of `parse_tile_mapping`: strip the
line, require the `"Slice "` head, split once at `": "` and keep the
stripped second part. -/
def parseLine (line0 : List Char) : Option (List Char) :=
  if startsWithL slicePre (pystrip line0) then
    match splitOnce colonSp (pystrip line0) with
    | some (_, post) => some (pystrip post)
    | none => none
  else none

/-- Function `parse_tile_mapping` from `export_segmentations.py`: strip the whole
description, split it into lines, and collect the parsed names in order. -/
def parse_tile_mapping (description : List Char) : List (List Char) :=
  List.filterMap parseLine (splitlines (pystrip description))

/-! ## Well-formedness of tile stem names used in claim C1 -/
/-- The name contains no `splitlines` line-boundary character. -/
def noBreaks (l : List Char) : Bool :=
  l.all fun c => !(isLineBreakB c)

/-- The name neither starts nor ends with model whitespace. -/
def noEdgeWs (l : List Char) : Bool :=
  (match l.head? with | some c => !(isPySpaceB c) | none => true) &&
  (match l.getLast? with | some c => !(isPySpaceB c) | none => true)

/-! ## NumPy array model

Arrays are nested lists of `Nat` (pixel values; dtype casts to `uint8`
are written as explicit `% 256`).  A 2-D array is a list of rows, a 3-D
array a list of rows of channel vectors, a 4-D array a list of 3-D
arrays.  NumPy's shape metadata is recovered from the nesting (so
zero-size dimensions below a zero dimension are outside the model). -/
abbrev Mat := List (List Nat)

abbrev Mat3 := List (List (List Nat))

abbrev Mat4 := List (List (List (List Nat)))

inductive NpArr where
  | d2 (m : Mat)
  | d3 (m : Mat3)
  | d4 (m : Mat4)
deriving DecidableEq

/-- Indexing: `nthD l n d` is `l[n]` with default `d` out of range. -/
def nthD {α : Type} : List α → Nat → α → α
  | [], _, d => d
  | a :: _, 0, _ => a
  | _ :: l, n + 1, d => nthD l n d

/-- Shape: `arr.shape[1]` of a nested-list array: the length of its first row. -/
def matW {α : Type} (m : List (List α)) : Nat := (nthD m 0 []).length

/-- Shape: `arr.shape[2]` of a 3-D array: the length of its first channel
vector. -/
def chanOf (m : Mat3) : Nat := (nthD (nthD m 0 []) 0 []).length

/-- Shape `arr.shape[0]`. -/
def shape0 : NpArr → Nat
  | .d2 m => m.length
  | .d3 m => m.length
  | .d4 m => m.length

/-- Shape `arr.shape[1]`. -/
def shape1 : NpArr → Nat
  | .d2 m => matW m
  | .d3 m => matW m
  | .d4 m => matW m

/-- Rectangularity of a 2-D nested list: all rows have width `w`. -/
def RectMat {α : Type} (m : List (List α)) (w : Nat) : Prop :=
  ∀ r ∈ m, r.length = w

/-- Rectangularity of a 3-D nested list: all rows have width `w`, all
channel vectors length `c`. -/
def RectCube (m : Mat3) (w c : Nat) : Prop :=
  ∀ r ∈ m, r.length = w ∧ ∀ p ∈ r, p.length = c

instance {α : Type} (m : List (List α)) (w : Nat) :
    Decidable (RectMat m w) :=
  inferInstanceAs (Decidable (∀ r ∈ m, r.length = w))

instance (m : Mat3) (w c : Nat) : Decidable (RectCube m w c) :=
  inferInstanceAs (Decidable (∀ r ∈ m, r.length = w ∧ ∀ p ∈ r, p.length = c))

/-- Entry of a 2-D array (0 out of range, matching the zero padding). -/
def ent0 (m : Mat) (y x : Nat) : Nat := nthD (nthD m y []) x 0

/-- Pixel (channel vector) of a 3-D array. -/
def pixAt (m : Mat3) (y x : Nat) : List Nat := nthD (nthD m y []) x []

/-- Function `pad_array_to_shape`, from `automated_loading_batch.py`, for one
nesting level: rows gain `max(0, target_w - w)` copies of the zero
element `z` on the right, and `max(0, target_h - h)` fresh zero rows are
appended (`np.pad(..., mode="constant", constant_values=0)` with
`pad_width = [(0, pad_h), (0, pad_w)]` plus `(0, 0)` on any channel
axis, whose zero element is the all-zero channel vector).  When both
pads are zero the input is returned unchanged. -/
def padToShape {α : Type} (z : α) (th tw : Nat) (m : List (List α)) :
    List (List α) :=
  if th - m.length = 0 ∧ tw - matW m = 0 then m
  else
    (m.map fun r => r ++ List.replicate (tw - matW m) z) ++
      List.replicate (th - m.length)
        (List.replicate (matW m + (tw - matW m)) z)

/-- Function `pad_array_to_shape` on the array sum type.  A 4-D input would make
`np.pad` raise (the `pad_width` list only covers `ndim ≤ 3`) and never
occurs in the pipeline; the model returns it unchanged. -/
def pad_array_to_shape : NpArr → Nat → Nat → NpArr
  | .d2 m, th, tw => .d2 (padToShape 0 th tw m)
  | .d3 m, th, tw => .d3 (padToShape (List.replicate (chanOf m) 0) th tw m)
  | .d4 m, _, _ => .d4 m

def asD2 : NpArr → Option Mat
  | .d2 m => some m
  | _ => none

def asD3 : NpArr → Option Mat3
  | .d3 m => some m
  | _ => none

def seqOpt {α : Type} : List (Option α) → Option (List α)
  | [] => some []
  | none :: _ => none
  | some a :: rest => (seqOpt rest).map (a :: ·)

def shape2 {α : Type} (m : List (List α)) : Nat × Nat := (m.length, matW m)

def shape3of (m : Mat3) : Nat × Nat × Nat := (m.length, matW m, chanOf m)

def sameShapes2 (ms : List Mat) : Bool :=
  match ms with
  | [] => true
  | m :: rest => rest.all fun m2 => decide (shape2 m2 = shape2 m)

def sameShapes3 (ms : List Mat3) : Bool :=
  match ms with
  | [] => true
  | m :: rest => rest.all fun m2 => decide (shape3of m2 = shape3of m)

/-- NumPy's `np.stack(arrays, axis=0)`: all inputs must have the same number of
dimensions and the same shape, otherwise NumPy raises (`none`).  A list
of equal-shape 2-D arrays stacks to a 3-D array, 3-D to 4-D.  Stacking
4-D arrays would produce a 5-D array, which never occurs in this
pipeline and is outside the model (`none`). -/
def npStack : List NpArr → Option NpArr
  | [] => none
  | NpArr.d2 m0 :: rest =>
    match seqOpt ((NpArr.d2 m0 :: rest).map asD2) with
    | some ms => if sameShapes2 ms then some (.d3 ms) else none
    | none => none
  | NpArr.d3 m0 :: rest =>
    match seqOpt ((NpArr.d3 m0 :: rest).map asD3) with
    | some ms => if sameShapes3 ms then some (.d4 ms) else none
    | none => none
  | NpArr.d4 _ :: _ => none

/-- Python's `max(...)` over a non-empty list of naturals (the model
returns 0 on `[]`, where Python raises; `stack_tile_arrays` only reaches
it on non-empty input). -/
def listMax (l : List Nat) : Nat := l.foldr max 0

/-- Function `stack_tile_arrays` from `automated_loading_batch.py`: `None` for an
empty list, otherwise every array is padded to the maximal height and
width and the results are stacked along a new first axis. -/
def stack_tile_arrays (arrays : List NpArr) : Option NpArr :=
  match arrays with
  | [] => none
  | _ :: _ =>
    npStack (arrays.map fun a =>
      pad_array_to_shape a (listMax (arrays.map shape0))
        (listMax (arrays.map shape1)))

/-! ## `binarize_mask_array` (automated_loading_batch.py) -/
/-- NumPy's `np.max` of a pixel's channel vector (`np.max(..., axis=-1)`
pointwise).  NumPy raises on a zero-length axis; the model returns 0
there, so theorems about 3-D inputs assume at least one channel. -/
def pixMax (p : List Nat) : Nat := p.foldr max 0

/-- The RGBA special case test of `binarize_mask_array`:
`np.any(alpha == 0) and np.any(alpha > 0)` for `alpha = mask_array[..., 3]`. -/
def alphaMixed (m : Mat3) : Bool :=
  (m.any fun r => r.any fun p => nthD p 3 0 == 0) &&
  (m.any fun r => r.any fun p => decide (0 < nthD p 3 0))

/-- The channel collapse of `binarize_mask_array` for a 3-D input:
an array with 4 channels whose alpha channel has both zero and non-zero
entries collapses to its alpha channel; any other 4-channel array
collapses to the per-pixel maximum of its first three channels; other
channel counts collapse to the per-pixel maximum over all channels. -/
def collapse3 (m : Mat3) : Mat :=
  if chanOf m = 4 then
    if alphaMixed m then m.map fun r => r.map fun p => nthD p 3 0
    else m.map fun r => r.map fun p => pixMax (p.take 3)
  else m.map fun r => r.map pixMax

/-- Cast `astype(np.uint8)` followed by `(collapsed == 255).astype(np.uint8)`:
each value is cast modulo 256 and compared with 255, yielding 0 or 1. -/
def binMask (m : Mat) : Mat :=
  m.map fun r => r.map fun v => if v % 256 = 255 then 1 else 0

/-- Function `binarize_mask_array`: 3-D inputs are collapsed to one channel, then
the uint8 cast and the `== 255` test produce a 0/1 2-D array.  2-D
inputs skip the collapse.  (A 4-D input would skip the collapse branch
and be compared elementwise; it never occurs in the pipeline.) -/
def binarize_mask_array : NpArr → NpArr
  | .d2 m => .d2 (binMask m)
  | .d3 m => .d2 (binMask (collapse3 m))
  | .d4 m => .d4 (m.map fun c3 => c3.map fun c2 => c2.map fun r =>
      r.map fun v => if v % 256 = 255 then 1 else 0)

/-! ## Export model (`export_segmentations.py`, per-segment loop)

File I/O and Slicer calls are abstracted: `dimsOf` maps an image file
name to its header dimensions when the file exists and is readable
(`he_path.is_file()` plus `read_image_dimensions`), and the exported
per-segment labelmap array `mask3d` is passed in.  File names stand for
paths; the directory parts (`he_dir`, `class_dir`) are fixed per loop
and carry no information for the claims. -/
/-- Output filename `f"{case_name}_{class_name}_{tile_suffix}{tag}{ext}"`. -/
def outName (caseName className tileSuffix tag ext : List Char) :
    List Char :=
  caseName ++ ['_'] ++ className ++ ['_'] ++ tileSuffix ++ tag ++ ext

/-- An original dataset mask filename `<case>_<class>_<tileID><ext>`
(the names indexed by `build_mask_index`). -/
def maskFileName (caseName className tileID ext : List Char) : List Char :=
  caseName ++ ['_'] ++ className ++ ['_'] ++ tileID ++ ext

/-- Cropping `slice_mask[:orig_h, :orig_w]` when dimensions were recorded,
the slice unchanged otherwise. -/
def cropSlice : Option (Nat × Nat) → Mat → Mat
  | some (h, w), m => (m.take h).map fun r => r.take w
  | none, m => m

/-- Binarization `(slice_mask > 0).astype(np.uint8) * 255`. -/
def toBinary255 (m : Mat) : Mat :=
  m.map fun r => r.map fun v => if 0 < v then 255 else 0

/-- The pre-read loop building `tile_dims` (`slice_idx → (h, w)`),
keyed over `enumerate(tile_names)` from `idx`; an entry is recorded only
when the tile's image file exists and its header is readable. -/
def buildTileDimsGo (dimsOf : List Char → Option (Nat × Nat))
    (imgPre ext : List Char) (idx : Nat) :
    List (List Char) → List (Nat × Nat × Nat)
  | [] => []
  | stem :: rest =>
    match dimsOf (imgPre ++ stem.drop imgPre.length ++ ext) with
    | some (h, w) =>
      (idx, h, w) :: buildTileDimsGo dimsOf imgPre ext (idx + 1) rest
    | none => buildTileDimsGo dimsOf imgPre ext (idx + 1) rest

def buildTileDims (dimsOf : List Char → Option (Nat × Nat))
    (imgPre ext : List Char) (tileNames : List (List Char)) :
    List (Nat × Nat × Nat) :=
  buildTileDimsGo dimsOf imgPre ext 0 tileNames

/-- The per-slice export loop of `export_segmentations.py` for one
segment (class): enumerate `tile_names` from `idx`, break once the
slice index reaches `mask_3d.shape[0]`, and write for each tile the
0/255 binarization of the (possibly cropped) labelmap slice under the
tagged output name. -/
def exportLoopGo (caseName className imgPre tag ext : List Char)
    (tileDims : List (Nat × Nat × Nat)) (mask3d : Mat3) (idx : Nat) :
    List (List Char) → List (List Char × Mat)
  | [] => []
  | stem :: rest =>
    if mask3d.length ≤ idx then []
    else
      (outName caseName className (stem.drop imgPre.length) tag ext,
        toBinary255 (cropSlice (List.lookup idx tileDims)
          (nthD mask3d idx []))) ::
      exportLoopGo caseName className imgPre tag ext tileDims mask3d
        (idx + 1) rest

/-- The list of `(output name, written mask)` pairs produced for one
segment. -/
def exportSegment (caseName className imgPre tag ext : List Char)
    (tileDims : List (Nat × Nat × Nat)) (mask3d : Mat3)
    (tileNames : List (List Char)) : List (List Char × Mat) :=
  exportLoopGo caseName className imgPre tag ext tileDims mask3d 0
    tileNames

/-! ## `build_mask_index` (automated_loading_batch.py) -/
/-- The filename prefix `f"{case_name}_{class_name}_"` used by
`build_mask_index`. -/
def maskPre (caseName className : List Char) : List Char :=
  caseName ++ ['_'] ++ className ++ ['_']

/-- The image filename prefix `f"{case_name}_{he_folder}_"` used by
`main` to derive a tile's suffix. -/
def hePre (caseName heFolder : List Char) : List Char :=
  caseName ++ ['_'] ++ heFolder ++ ['_']

/-- Function `build_mask_index`: scan the files of `<case_dir>/<class_name>/`
matching the glob `*{ext}` (names ending in `ext`; the directory listing
is abstracted as `dirFiles`, and sortedness does not affect the index
since each name determines its key), keep those starting with
`f"{case_name}_{class_name}_"`, and key each by its remaining tileID
suffix.  The dict is modelled as an association list; keys are unique
because the name is the prefix followed by the key. -/
def build_mask_index (caseName className ext : List Char)
    (dirFiles : List (List Char)) : List (List Char × List Char) :=
  (dirFiles.filter fun nm => endsWithL ext nm).filterMap fun nm =>
    if startsWithL (maskPre caseName className) nm then
      some (nm.drop (maskPre caseName className).length, nm)
    else none

/-! ## Abstract main-flow models

The two `main` functions are modelled as pure functions over the
observable results of their effects: directory existence flags, the
case/file tree, and loader functions returning `none` where Slicer I/O
returns falsy/`None`.  Raised exceptions become `Except.error`; printed
`[WARN]` lines become an explicit event trace. -/
inductive PyError where
  | fileNotFound (msg : List Char)
  | runtimeError (msg : List Char)
deriving DecidableEq

inductive LogEvent where
  | warnImageLoadFailed (file : List Char)
  | warnNoTiles (caseName : List Char)
  | warnNoVolume (volName segName : List Char)
  | warnNoMapping (volName : List Char)
  | warnBadSegName (segName : List Char)
  | warnNoSegmentations
deriving DecidableEq

def msgRootNotFound : List Char :=
  ['R', 'o', 'o', 't', ' ', 'f', 'o', 'l', 'd', 'e', 'r', ' ',
   'n', 'o', 't', ' ', 'f', 'o', 'u', 'n', 'd']

def msgSceneNotFound : List Char :=
  ['S', 'c', 'e', 'n', 'e', ' ', 'f', 'i', 'l', 'e', ' ',
   'n', 'o', 't', ' ', 'f', 'o', 'u', 'n', 'd']

def msgNoCases : List Char :=
  ['N', 'o', ' ', 'c', 'a', 's', 'e', ' ', 'f', 'o', 'l', 'd', 'e',
   'r', 's', ' ', 'f', 'o', 'u', 'n', 'd']

/-- NumPy's `np.zeros(img_arr.shape[:2], dtype=np.uint8)`. -/
def zerosArr (img : NpArr) : NpArr :=
  .d2 (List.replicate (shape0 img) (List.replicate (shape1 img) 0))

/-- The loop body for one image tile (`automated_loading_batch.py`,
lines 386–410): `none` (skip, after a warning) when the image fails to
load; otherwise the image array, the tile stem (`Path.stem`: the name
without its extension), and for every class either the binarized mask
(when the indexed mask file loads) or an all-zero mask of the image's
2-D shape (when the class has no mask for this suffix, or the mask
fails to load) — the latter two cases produce no warning. -/
def processTile (ext imgPre : List Char)
    (classDirs : List (List Char))
    (loadImage loadMaskRaw : List Char → Option NpArr)
    (maskIndex : List Char → List Char → Option (List Char))
    (nm : List Char) :
    Option (NpArr × List Char × List (List Char × NpArr)) :=
  match loadImage nm with
  | none => none
  | some img =>
    some (img, nm.take (nm.length - ext.length),
      classDirs.map fun cn =>
        (cn, match maskIndex cn (nm.drop imgPre.length) with
          | some mp =>
            match loadMaskRaw mp with
            | some raw => binarize_mask_array raw
            | none => zerosArr img
          | none => zerosArr img))

/-- Phase 1 of a case (lines 381–410): process the image files in
order, skipping tiles whose image fails to load with a warning. -/
def loadCaseTiles (ext imgPre : List Char)
    (classDirs : List (List Char))
    (loadImage loadMaskRaw : List Char → Option NpArr)
    (maskIndex : List Char → List Char → Option (List Char)) :
    List (List Char) →
    List (NpArr × List Char × List (List Char × NpArr)) × List LogEvent
  | [] => ([], [])
  | nm :: rest =>
    match processTile ext imgPre classDirs loadImage loadMaskRaw
        maskIndex nm with
    | none =>
      ((loadCaseTiles ext imgPre classDirs loadImage loadMaskRaw
          maskIndex rest).1,
       .warnImageLoadFailed nm ::
        (loadCaseTiles ext imgPre classDirs loadImage loadMaskRaw
          maskIndex rest).2)
    | some t =>
      (t :: (loadCaseTiles ext imgPre classDirs loadImage loadMaskRaw
          maskIndex rest).1,
       (loadCaseTiles ext imgPre classDirs loadImage loadMaskRaw
          maskIndex rest).2)

/-- One case folder as discovered under `--root`: its name, the sorted
image file names of its HE folder matching the glob and image prefix
(lines 357–361), and its class directory names. -/
structure CaseInput where
  name : List Char
  heFiles : List (List Char)
  classDirs : List (List Char)

/-- The observable result of loading one case: the volume built by
stacking the tile arrays, and the slice-to-tile mapping stored in the
volume's description. -/
structure CaseResult where
  name : List Char
  tileNames : List (List Char)
  volume : Option NpArr
  descr : List Char
deriving DecidableEq

/-- One iteration of the case loop: a case with no image tiles is
skipped with a warning; a case all of whose tiles failed to load is
skipped silently (line 412); otherwise the tiles are stacked and the
mapping written. -/
def batchCase (ext heFolder : List Char)
    (loadImage loadMaskRaw : List Char → Option NpArr)
    (fsIndex : List Char → List Char → List Char → Option (List Char))
    (ci : CaseInput) : Option CaseResult × List LogEvent :=
  if ci.heFiles = [] then (none, [.warnNoTiles ci.name])
  else
    match loadCaseTiles ext (hePre ci.name heFolder) ci.classDirs
        loadImage loadMaskRaw (fsIndex ci.name) ci.heFiles with
    | ([], evs) => (none, evs)
    | (tiles, evs) =>
      (some ⟨ci.name, tiles.map fun t => t.2.1,
        stack_tile_arrays (tiles.map fun t => t.1),
        writeMapping (tiles.map fun t => t.2.1)⟩, evs)

def batchCases (ext heFolder : List Char)
    (loadImage loadMaskRaw : List Char → Option NpArr)
    (fsIndex : List Char → List Char → List Char → Option (List Char)) :
    List CaseInput → List CaseResult × List LogEvent
  | [] => ([], [])
  | ci :: rest =>
    ((match (batchCase ext heFolder loadImage loadMaskRaw fsIndex ci).1
        with
      | some cr => cr ::
          (batchCases ext heFolder loadImage loadMaskRaw fsIndex rest).1
      | none =>
          (batchCases ext heFolder loadImage loadMaskRaw fsIndex rest).1),
     (batchCase ext heFolder loadImage loadMaskRaw fsIndex ci).2 ++
      (batchCases ext heFolder loadImage loadMaskRaw fsIndex rest).2)

/-- Function `main` of `automated_loading_batch.py`, up to the saved scene: the
root directory check (line 314, `FileNotFoundError`), the empty
case-list check (line 325, `RuntimeError`), then the case loop. -/
def batchMain (rootIsDir : Bool) (ext heFolder : List Char)
    (loadImage loadMaskRaw : List Char → Option NpArr)
    (fsIndex : List Char → List Char → List Char → Option (List Char))
    (cases : List CaseInput) :
    Except PyError (List CaseResult × List LogEvent) :=
  if rootIsDir = false then .error (.fileNotFound msgRootNotFound)
  else if cases.isEmpty then .error (.runtimeError msgNoCases)
  else .ok (batchCases ext heFolder loadImage loadMaskRaw fsIndex cases)

/-! ### Export-side model -/
def segSuffixTag : List Char :=
  ['_', 'S', 'e', 'g', 'm', 'e', 'n', 't', 'a', 't', 'i', 'o', 'n']

/-- A volume node of the loaded scene: its name and description.  The
single list stands for the vector-volume nodes followed by the
scalar-volume nodes, in the order searched by lines 196–202. -/
structure SceneVolume where
  name : List Char
  descr : List Char
deriving DecidableEq

/-- A segmentation node: its name and its segments as (class name,
exported per-segment labelmap) pairs — `ExportSegmentsToLabelmapNode`
aligned to the matching HE volume is abstracted into the data. -/
structure SegNodeM where
  name : List Char
  segments : List (List Char × Mat3)
deriving DecidableEq

/-- The case name derived from a segmentation node's name:
`"<case>_Segmentation" → "<case>"`, the name itself otherwise. -/
def segCaseName (seg : SegNodeM) : List Char :=
  if endsWithL segSuffixTag seg.name then
    seg.name.take (seg.name.length - segSuffixTag.length)
  else seg.name

/-- The warning emitted when a segmentation node does not follow the
`_Segmentation` naming convention (the node is still processed). -/
def segBadEvs (seg : SegNodeM) : List LogEvent :=
  if endsWithL segSuffixTag seg.name then [] else
    [.warnBadSegName seg.name]

/-- The name `f"{case_name}_HE"` of the volume searched for a
segmentation (the `"HE"` literal is hard-coded in both scripts). -/
def segVolName (seg : SegNodeM) : List Char :=
  segCaseName seg ++ ['_', 'H', 'E']

/-- The per-segmentation-node body (lines 182–279): derive the case
name from the `_Segmentation` suffix (warning when absent), find the
matching `<case>_HE` volume (warn and skip when missing), parse the
slice-to-tile mapping (warn and skip when empty), then export every
segment through the per-slice loop. -/
def processSegNode (heFolder ext tag : List Char)
    (volumes : List SceneVolume)
    (dimsOf : List Char → Option (Nat × Nat))
    (seg : SegNodeM) : List (List Char × Mat) × List LogEvent :=
  match volumes.find? fun v => v.name == segVolName seg with
  | none => ([], segBadEvs seg ++ [.warnNoVolume (segVolName seg) seg.name])
  | some vol =>
    if parse_tile_mapping vol.descr = [] then
      ([], segBadEvs seg ++ [.warnNoMapping (segVolName seg)])
    else
      ((seg.segments.map fun s =>
        exportSegment (segCaseName seg) s.1
          (hePre (segCaseName seg) heFolder) tag ext
          (buildTileDims dimsOf (hePre (segCaseName seg) heFolder) ext
            (parse_tile_mapping vol.descr))
          s.2 (parse_tile_mapping vol.descr)).flatten,
       segBadEvs seg)

def exportSegs (heFolder ext tag : List Char)
    (volumes : List SceneVolume)
    (dimsOf : List Char → Option (Nat × Nat)) :
    List SegNodeM → List (List Char × Mat) × List LogEvent
  | [] => ([], [])
  | sn :: rest =>
    ((processSegNode heFolder ext tag volumes dimsOf sn).1 ++
      (exportSegs heFolder ext tag volumes dimsOf rest).1,
     (processSegNode heFolder ext tag volumes dimsOf sn).2 ++
      (exportSegs heFolder ext tag volumes dimsOf rest).2)

/-- Function `main` of `export_segmentations.py`: the scene-file check (line
164) and root-directory check (line 166), both `FileNotFoundError`,
precede the scene load; an empty segmentation list only warns; then
every segmentation node is processed. -/
def exportMain (sceneIsFile rootIsDir : Bool)
    (heFolder ext tag : List Char)
    (segNodes : List SegNodeM) (volumes : List SceneVolume)
    (dimsOf : List Char → Option (Nat × Nat)) :
    Except PyError (List (List Char × Mat) × List LogEvent) :=
  if sceneIsFile = false then .error (.fileNotFound msgSceneNotFound)
  else if rootIsDir = false then .error (.fileNotFound msgRootNotFound)
  else if segNodes.isEmpty then .ok ([], [.warnNoSegmentations])
  else .ok (exportSegs heFolder ext tag volumes dimsOf segNodes)

/-! ## Theorems -/

/-! ## Lemmas on the string helpers -/
theorem noEdgeWs_head {l : List Char} {c : Char} (h : noEdgeWs l = true)
    (hc : l.head? = some c) : isPySpaceB c = false := by
  unfold noEdgeWs at h
  rw [hc, Bool.and_eq_true] at h
  simpa using h.1

theorem noEdgeWs_last {l : List Char} {c : Char} (h : noEdgeWs l = true)
    (hc : l.getLast? = some c) : isPySpaceB c = false := by
  unfold noEdgeWs at h
  rw [hc, Bool.and_eq_true] at h
  simpa using h.2

theorem noBreaks_mem {l : List Char} {c : Char} (h : noBreaks l = true)
    (hc : c ∈ l) : isLineBreakB c = false := by
  unfold noBreaks at h
  rw [List.all_eq_true] at h
  simpa using h c hc

theorem dropWhile_eq_self_of_head (p : Char → Bool) (l : List Char)
    (h : ∀ c, l.head? = some c → p c = false) : List.dropWhile p l = l := by
  cases l with
  | nil => rfl
  | cons a t => simp [List.dropWhile_cons, h a rfl]

theorem getLast?_append_ne {α : Type} (l1 l2 : List α) (h : l2 ≠ []) :
    (l1 ++ l2).getLast? = l2.getLast? := by
  rw [List.getLast?_append]
  cases hl : l2.getLast? with
  | none => exact absurd (List.getLast?_eq_none_iff.mp hl) h
  | some c => rfl

theorem pystrip_eq_self (l : List Char)
    (h1 : ∀ c, l.head? = some c → isPySpaceB c = false)
    (h2 : ∀ c, l.getLast? = some c → isPySpaceB c = false) :
    pystrip l = l := by
  unfold pystrip rstripW
  rw [dropWhile_eq_self_of_head _ _ h1]
  rw [dropWhile_eq_self_of_head _ _ (fun c hc => by
    rw [List.head?_reverse] at hc
    exact h2 c hc)]
  exact List.reverse_reverse l

theorem startsWithL_append_self (p r : List Char) :
    startsWithL p (p ++ r) = true := by
  induction p with
  | nil => rfl
  | cons a t ih => simp [startsWithL, ih]

theorem splitOnce_append_colonSp (pre name : List Char) (h : ':' ∉ pre) :
    splitOnce colonSp (pre ++ ':' :: ' ' :: name) = some (pre, name) := by
  induction pre with
  | nil =>
    show splitOnce colonSp (':' :: ' ' :: name) = some ([], name)
    simp [splitOnce, startsWithL, colonSp]
  | cons a t ih =>
    have ha : (':' == a) = false := by
      simp only [List.mem_cons, not_or] at h
      simpa [beq_eq_false_iff_ne] using h.1
    show splitOnce colonSp (a :: (t ++ ':' :: ' ' :: name)) = _
    rw [splitOnce]
    rw [show startsWithL colonSp (a :: (t ++ ':' :: ' ' :: name)) = false by
      simp [colonSp, startsWithL, ha]]
    simp only [Bool.false_eq_true, if_false]
    rw [ih (fun hm => h (List.mem_cons_of_mem _ hm))]

/-! ## Lemmas on `splitlines` -/
theorem splitlinesGo_clean (l : List Char) :
    ∀ (cur : List Char) (b : Bool), (∀ c ∈ l, isLineBreakB c = false) →
    (cur ≠ [] ∨ l ≠ []) → splitlinesGo cur b l = [cur ++ l] := by
  induction l with
  | nil =>
    intro cur b _ hne
    rcases hne with h' | h'
    · simp [splitlinesGo, h']
    · exact absurd rfl h'
  | cons c rest ih =>
    intro cur b h hne
    have hc : isLineBreakB c = false := h c (List.mem_cons_self _ _)
    have hcn : (c == '\n') = false := by
      cases hbe : c == '\n' with
      | false => rfl
      | true =>
        rw [beq_iff_eq] at hbe
        subst hbe
        simp [isLineBreakB] at hc
    rw [splitlinesGo]
    rw [show (b && c == '\n') = false by simp [hcn]]
    simp only [Bool.false_eq_true, if_false, hc]
    rw [ih (cur ++ [c]) false
      (fun x hx => h x (List.mem_cons_of_mem _ hx)) (Or.inl (by simp))]
    simp

theorem splitlinesGo_sep (line : List Char) :
    ∀ (cur rest : List Char), (∀ c ∈ line, isLineBreakB c = false) →
    splitlinesGo cur false (line ++ '\n' :: rest) =
      (cur ++ line) :: splitlinesGo [] false rest := by
  induction line with
  | nil =>
    intro cur rest _
    show splitlinesGo cur false ('\n' :: rest) = _
    rw [splitlinesGo]
    rw [show (false && ('\n' == '\n')) = false from rfl]
    rw [show isLineBreakB '\n' = true from rfl]
    rw [show (('\n' : Char) == '\r') = false from rfl]
    simp
  | cons c cs ih =>
    intro cur rest h
    have hc : isLineBreakB c = false := h c (List.mem_cons_self _ _)
    show splitlinesGo cur false (c :: (cs ++ '\n' :: rest)) = _
    rw [splitlinesGo]
    simp only [Bool.false_and, Bool.false_eq_true, if_false, hc]
    rw [ih (cur ++ [c]) rest (fun x hx => h x (List.mem_cons_of_mem _ hx))]
    simp

/-! ## Lemmas on `joinNl` -/
theorem joinNl_cons_cons (l l2 : List Char) (ls : List (List Char)) :
    joinNl (l :: l2 :: ls) = l ++ '\n' :: joinNl (l2 :: ls) := rfl

theorem joinNl_concat_ne_nil (t : List (List Char)) (l : List Char)
    (h : l ≠ []) : joinNl (t ++ [l]) ≠ [] := by
  cases t with
  | nil => simpa [joinNl]
  | cons a t' =>
    cases t' with
    | nil => simp [joinNl]
    | cons b t'' => simp [joinNl]

theorem joinNl_getLast? (t : List (List Char)) :
    ∀ l : List Char, l ≠ [] →
    (joinNl (t ++ [l])).getLast? = l.getLast? := by
  induction t with
  | nil => intro l _; rfl
  | cons a t' ih =>
    intro l h
    show (joinNl (a :: (t' ++ [l]))).getLast? = _
    have hne : joinNl (t' ++ [l]) ≠ [] := joinNl_concat_ne_nil t' l h
    obtain ⟨r, rs, hr⟩ :
        ∃ r rs, t' ++ [l] = r :: rs := by
      cases t' with
      | nil => exact ⟨l, [], rfl⟩
      | cons x xs => exact ⟨x, xs ++ [l], rfl⟩
    rw [hr, joinNl_cons_cons, ← hr]
    rw [getLast?_append_ne a ('\n' :: joinNl (t' ++ [l])) (by simp)]
    rw [show ('\n' :: joinNl (t' ++ [l])).getLast? =
          (joinNl (t' ++ [l])).getLast? by
      obtain ⟨x, xs, hx⟩ := List.exists_cons_of_ne_nil hne
      rw [hx, List.getLast?_cons_cons]]
    exact ih l h

theorem joinNl_head? (l : List Char) (ls : List (List Char)) (h : l ≠ []) :
    (joinNl (l :: ls)).head? = l.head? := by
  cases ls with
  | nil => rfl
  | cons l2 ls' =>
    obtain ⟨c, t, rfl⟩ := List.exists_cons_of_ne_nil h
    rfl

theorem splitlines_joinNl (lines : List (List Char))
    (hclean : ∀ l ∈ lines, ∀ c ∈ l, isLineBreakB c = false)
    (hne : ∀ l ∈ lines, l ≠ []) :
    splitlines (joinNl lines) = lines := by
  induction lines with
  | nil => rfl
  | cons l ls ih =>
    cases ls with
    | nil =>
      show splitlines (joinNl [l]) = [l]
      unfold splitlines
      rw [show joinNl [l] = l from rfl]
      rw [splitlinesGo_clean l [] false
        (hclean l (List.mem_cons_self _ _))
        (Or.inr (hne l (List.mem_cons_self _ _)))]
      simp
    | cons l2 ls' =>
      show splitlines (joinNl (l :: l2 :: ls')) = _
      unfold splitlines
      rw [joinNl_cons_cons]
      rw [splitlinesGo_sep l [] _ (hclean l (List.mem_cons_self _ _))]
      have := ih (fun x hx => hclean x (List.mem_cons_of_mem _ hx))
        (fun x hx => hne x (List.mem_cons_of_mem _ hx))
      unfold splitlines at this
      rw [this]
      simp

/-! ## Lemmas on the mapping writer and parser -/
theorem digitChar_ok (d : Nat) :
    isLineBreakB (digitChar d) = false ∧ isPySpaceB (digitChar d) = false ∧
      digitChar d ≠ ':' := by
  rcases d with _|_|_|_|_|_|_|_|_|d <;> simp [digitChar] <;> decide

theorem natToDigitsGo_ok (fuel : Nat) :
    ∀ n, ∀ c ∈ natToDigitsGo fuel n,
      isLineBreakB c = false ∧ isPySpaceB c = false ∧ c ≠ ':' := by
  induction fuel with
  | zero => intro n c hc; simp [natToDigitsGo] at hc
  | succ fuel ih =>
    intro n c hc
    rw [natToDigitsGo] at hc
    split at hc
    · rw [List.mem_singleton] at hc
      subst hc
      exact digitChar_ok n
    · rw [List.mem_append] at hc
      rcases hc with h | h
      · exact ih (n / 10) c h
      · rw [List.mem_singleton] at h
        subst h
        exact digitChar_ok (n % 10)

theorem natToDigits_ok (n : Nat) :
    ∀ c ∈ natToDigits n,
      isLineBreakB c = false ∧ isPySpaceB c = false ∧ c ≠ ':' :=
  natToDigitsGo_ok (n + 1) n

theorem sliceLine_ne_nil (i : Nat) (name : List Char) :
    sliceLine i name ≠ [] := by
  simp [sliceLine, slicePre]

theorem sliceLine_noBreaks (i : Nat) (name : List Char)
    (h : noBreaks name = true) :
    ∀ c ∈ sliceLine i name, isLineBreakB c = false := by
  intro c hc
  unfold sliceLine at hc
  rw [List.append_assoc, List.append_assoc, List.mem_append] at hc
  rcases hc with hc | hc
  · revert hc
    show c ∈ slicePre → isLineBreakB c = false
    intro hc
    fin_cases hc <;> rfl
  · rw [List.mem_append] at hc
    rcases hc with hc | hc
    · exact (natToDigits_ok i c hc).1
    · rw [List.mem_append] at hc
      rcases hc with hc | hc
      · revert hc
        show c ∈ colonSp → isLineBreakB c = false
        intro hc
        fin_cases hc <;> rfl
      · exact noBreaks_mem h hc

theorem sliceLine_head? (i : Nat) (name : List Char) :
    (sliceLine i name).head? = some 'S' := rfl

theorem sliceLine_getLast? (i : Nat) (name : List Char) (h : name ≠ []) :
    (sliceLine i name).getLast? = name.getLast? := by
  unfold sliceLine
  exact getLast?_append_ne _ name h

theorem pystrip_sliceLine (i : Nat) (name : List Char) (hne : name ≠ [])
    (hedge : noEdgeWs name = true) :
    pystrip (sliceLine i name) = sliceLine i name := by
  apply pystrip_eq_self
  · intro c hc
    rw [sliceLine_head?] at hc
    cases hc
    rfl
  · intro c hc
    rw [sliceLine_getLast? i name hne] at hc
    exact noEdgeWs_last hedge hc

theorem parseLine_sliceLine (i : Nat) (name : List Char)
    (hne : name ≠ []) (hedge : noEdgeWs name = true) :
    parseLine (sliceLine i name) = some name := by
  unfold parseLine
  rw [pystrip_sliceLine i name hne hedge]
  rw [show sliceLine i name = slicePre ++ (natToDigits i ++ (colonSp ++ name))
    from by simp [sliceLine, List.append_assoc]]
  rw [startsWithL_append_self]
  rw [if_pos rfl]
  rw [show slicePre ++ (natToDigits i ++ (colonSp ++ name)) =
        (slicePre ++ natToDigits i) ++ ':' :: ' ' :: name from by
    simp [colonSp, List.append_assoc]]
  rw [splitOnce_append_colonSp _ _ (by
    rw [List.mem_append]
    rintro (h | h)
    · revert h
      decide
    · exact (natToDigits_ok i ':' h).2.2 rfl)]
  show some (pystrip name) = some name
  rw [pystrip_eq_self name
    (fun c hc => noEdgeWs_head hedge hc)
    (fun c hc => noEdgeWs_last hedge hc)]

theorem mem_mappingLines (names : List (List Char)) :
    ∀ (i0 : Nat) (l : List Char), l ∈ mappingLines i0 names →
    ∃ i n, n ∈ names ∧ l = sliceLine i n := by
  induction names with
  | nil => intro i0 l h; simp [mappingLines] at h
  | cons n ns ih =>
    intro i0 l h
    rw [mappingLines, List.mem_cons] at h
    rcases h with h | h
    · exact ⟨i0, n, List.mem_cons_self _ _, h⟩
    · obtain ⟨i, m, hm, rfl⟩ := ih (i0 + 1) l h
      exact ⟨i, m, List.mem_cons_of_mem _ hm, rfl⟩

theorem filterMap_mappingLines (names : List (List Char))
    (h : ∀ n ∈ names, n ≠ [] ∧ noBreaks n = true ∧ noEdgeWs n = true) :
    ∀ i0 : Nat, List.filterMap parseLine (mappingLines i0 names) = names := by
  induction names with
  | nil => intro i0; rfl
  | cons n ns ih =>
    intro i0
    obtain ⟨hne, _, hed⟩ := h n (List.mem_cons_self _ _)
    rw [mappingLines, List.filterMap_cons,
      parseLine_sliceLine i0 n hne hed,
      ih (fun m hm => h m (List.mem_cons_of_mem _ hm)) (i0 + 1)]

/-! ## Claim C1 -/
/-- C1, counterexample: the round-trip claim fails as stated for the empty
tile stem name, which contains no newline characters and no leading or
trailing whitespace, yet `parse_tile_mapping` drops it: the written line
`"Slice 0: "` is right-stripped to `"Slice 0:"`, in which the separator
`": "` no longer occurs, so the parsed list is empty. -/
theorem c1_roundtrip_counterexample :
    noBreaks [] = true ∧ noEdgeWs [] = true ∧
      parse_tile_mapping (writeMapping [([] : List Char)]) ≠ [[]] := by
  decide

/-- C1 (amended): for every list of *non-empty* tile stem names containing
no line-boundary characters and no leading or trailing whitespace, parsing
(with `parse_tile_mapping` of `export_segmentations.py`) the description
string written by `automated_loading_batch.py` (lines `Slice {i}: {name}`
joined by newlines) returns exactly the original list of names, in the
same order. -/
theorem c1_mapping_roundtrip (names : List (List Char))
    (h : ∀ n ∈ names, n ≠ [] ∧ noBreaks n = true ∧ noEdgeWs n = true) :
    parse_tile_mapping (writeMapping names) = names := by
  cases names with
  | nil => rfl
  | cons n ns =>
    unfold parse_tile_mapping writeMapping
    have hmem : ∀ l ∈ mappingLines 0 (n :: ns),
        ∃ i m, m ∈ n :: ns ∧ l = sliceLine i m :=
      fun l hl => mem_mappingLines _ 0 l hl
    have hlines_ne : ∀ l ∈ mappingLines 0 (n :: ns), l ≠ [] := by
      intro l hl
      obtain ⟨i, m, _, rfl⟩ := hmem l hl
      exact sliceLine_ne_nil i m
    have hlines_clean : ∀ l ∈ mappingLines 0 (n :: ns),
        ∀ c ∈ l, isLineBreakB c = false := by
      intro l hl
      obtain ⟨i, m, hm, rfl⟩ := hmem l hl
      exact sliceLine_noBreaks i m (h m hm).2.1
    have hstrip : pystrip (joinNl (mappingLines 0 (n :: ns))) =
        joinNl (mappingLines 0 (n :: ns)) := by
      apply pystrip_eq_self
      · intro c hc
        rw [show mappingLines 0 (n :: ns) =
              sliceLine 0 n :: mappingLines 1 ns from rfl] at hc
        rw [joinNl_head? _ _ (sliceLine_ne_nil 0 n), sliceLine_head?] at hc
        cases hc
        rfl
      · intro c hc
        rcases List.eq_nil_or_concat (mappingLines 0 (n :: ns)) with
          hnil | ⟨t, llast, ht⟩
        · rw [show mappingLines 0 (n :: ns) =
              sliceLine 0 n :: mappingLines 1 ns from rfl] at hnil
          exact absurd hnil (by simp)
        · have hlmem : llast ∈ mappingLines 0 (n :: ns) := by
            rw [ht, List.concat_eq_append]
            exact List.mem_append_right _ (List.mem_singleton_self _)
          obtain ⟨i, m, hm, hlm⟩ := hmem llast hlmem
          rw [ht, List.concat_eq_append] at hc
          rw [joinNl_getLast? t llast
            (by rw [hlm]; exact sliceLine_ne_nil i m)] at hc
          rw [hlm, sliceLine_getLast? i m (h m hm).1] at hc
          exact noEdgeWs_last (h m hm).2.2 hc
    rw [hstrip, splitlines_joinNl _ hlines_clean hlines_ne,
      filterMap_mappingLines _ h 0]

/-- Witness for C1 (amended) at the concrete name list
`["R44_HE_t1", "x"]`. -/
theorem c1_mapping_roundtrip_witness :
    (∀ n ∈ [['R', '4', '4', '_', 'H', 'E', '_', 't', '1'], ['x']],
      n ≠ [] ∧ noBreaks n = true ∧ noEdgeWs n = true) ∧
    parse_tile_mapping
        (writeMapping [['R', '4', '4', '_', 'H', 'E', '_', 't', '1'], ['x']]) =
      [['R', '4', '4', '_', 'H', 'E', '_', 't', '1'], ['x']] :=
  ⟨by decide, c1_mapping_roundtrip _ (by decide)⟩

/-! ## Indexing lemmas -/
theorem nthD_nil {α : Type} (n : Nat) (d : α) : nthD [] n d = d := by
  cases n <;> rfl

theorem nthD_append_left {α : Type} (l1 l2 : List α) (n : Nat) (d : α)
    (h : n < l1.length) : nthD (l1 ++ l2) n d = nthD l1 n d := by
  induction l1 generalizing n with
  | nil => simp at h
  | cons a t ih =>
    cases n with
    | zero => rfl
    | succ n => exact ih n (by simpa using Nat.lt_of_succ_lt_succ (by simpa using h))

theorem nthD_append_right {α : Type} (l1 l2 : List α) (n : Nat) (d : α)
    (h : l1.length ≤ n) : nthD (l1 ++ l2) n d = nthD l2 (n - l1.length) d := by
  induction l1 generalizing n with
  | nil => simp [nthD]
  | cons a t ih =>
    cases n with
    | zero => simp at h
    | succ n =>
      show nthD (t ++ l2) n d = _
      rw [ih n (by simpa using Nat.le_of_succ_le_succ (by simpa using h))]
      simp [Nat.succ_sub_succ]

theorem nthD_map {α β : Type} (f : α → β) (l : List α) (n : Nat)
    (d : β) (d' : α) (h : n < l.length) :
    nthD (List.map f l) n d = f (nthD l n d') := by
  induction l generalizing n with
  | nil => simp at h
  | cons a t ih =>
    cases n with
    | zero => rfl
    | succ n => exact ih n (by simpa using Nat.lt_of_succ_lt_succ (by simpa using h))

theorem nthD_replicate_self {α : Type} (k n : Nat) (a : α) :
    nthD (List.replicate k a) n a = a := by
  induction k generalizing n with
  | zero => cases n <;> rfl
  | succ k ih =>
    rw [List.replicate_succ]
    cases n with
    | zero => rfl
    | succ n => exact ih n

theorem nthD_replicate_lt {α : Type} (k n : Nat) (a d : α) (h : n < k) :
    nthD (List.replicate k a) n d = a := by
  induction k generalizing n with
  | zero => omega
  | succ k ih =>
    rw [List.replicate_succ]
    cases n with
    | zero => rfl
    | succ n => exact ih n (by omega)

theorem nthD_mem {α : Type} (l : List α) (n : Nat) (d : α)
    (h : n < l.length) : nthD l n d ∈ l := by
  induction l generalizing n with
  | nil => simp at h
  | cons a t ih =>
    cases n with
    | zero => exact List.mem_cons_self _ _
    | succ n =>
      exact List.mem_cons_of_mem _
        (ih n (by simpa using Nat.lt_of_succ_lt_succ (by simpa using h)))

theorem nthD_ge {α : Type} (l : List α) (n : Nat) (d : α)
    (h : l.length ≤ n) : nthD l n d = d := by
  induction l generalizing n with
  | nil => exact nthD_nil n d
  | cons a t ih =>
    cases n with
    | zero => simp at h
    | succ n => exact ih n (by simpa using Nat.le_of_succ_le_succ (by simpa using h))

/-! ## Padding lemmas -/
theorem padToShape_length {α : Type} (z : α) (th tw : Nat)
    (m : List (List α)) :
    (padToShape z th tw m).length = max m.length th := by
  unfold padToShape
  split
  · next hc => omega
  · simp only [List.length_append, List.length_map, List.length_replicate]
    omega

theorem padToShape_rows {α : Type} (z : α) (th tw : Nat)
    (m : List (List α)) (hrect : RectMat m (matW m)) :
    ∀ r ∈ padToShape z th tw m, r.length = max (matW m) tw := by
  unfold padToShape
  split
  · next hc => intro r hr; rw [hrect r hr]; omega
  · intro r hr
    rw [List.mem_append] at hr
    rcases hr with hr | hr
    · obtain ⟨r0, hr0, rfl⟩ := List.mem_map.mp hr
      simp only [List.length_append, List.length_replicate, hrect r0 hr0]
      omega
    · rw [List.eq_of_mem_replicate hr]
      simp only [List.length_replicate]
      omega

theorem padToShape_content {α : Type} (z : α) (th tw : Nat)
    (m : List (List α)) (hrect : RectMat m (matW m)) (y x : Nat) (d : α)
    (hy : y < m.length) (hx : x < matW m) :
    nthD (nthD (padToShape z th tw m) y []) x d = nthD (nthD m y []) x d := by
  unfold padToShape
  split
  · rfl
  · rw [nthD_append_left _ _ y [] (by simpa using hy)]
    rw [nthD_map _ _ y [] [] hy]
    rw [nthD_append_left _ _ x d
      (by rw [hrect _ (nthD_mem m y [] hy)]; exact hx)]

theorem padToShape_zero {α : Type} (z : α) (th tw : Nat)
    (m : List (List α)) (hrect : RectMat m (matW m)) (y x : Nat) (d : α)
    (hy : y < max m.length th) (hx : x < max (matW m) tw)
    (hout : m.length ≤ y ∨ matW m ≤ x) :
    nthD (nthD (padToShape z th tw m) y []) x d = z := by
  unfold padToShape
  split
  · next hc => rcases hout with hy' | hx' <;> omega
  · rcases Nat.lt_or_ge y m.length with hyl | hyg
    · have hxw : matW m ≤ x := by rcases hout with h' | h' <;> omega
      rw [nthD_append_left _ _ y [] (by simpa using hyl)]
      rw [nthD_map _ _ y [] [] hyl]
      have hrow : (nthD m y []).length = matW m := hrect _ (nthD_mem m y [] hyl)
      rw [nthD_append_right _ _ x d (by omega)]
      exact nthD_replicate_lt _ _ _ _ (by omega)
    · have hth : m.length < th := by omega
      rw [nthD_append_right _ _ y [] (by simpa using hyg)]
      simp only [List.length_map]
      rw [nthD_replicate_lt _ _ _ _ (by omega)]
      exact nthD_replicate_lt _ _ _ _ (by omega)

theorem padToShape_id {α : Type} (z : α) (th tw : Nat)
    (m : List (List α)) (h1 : th ≤ m.length) (h2 : tw ≤ matW m) :
    padToShape z th tw m = m := by
  unfold padToShape
  rw [if_pos ⟨by omega, by omega⟩]

theorem padToShape_shape2 {α : Type} (z : α) (th tw : Nat)
    (m : List (List α)) (hrect : RectMat m (matW m))
    (hth : m.length ≤ th) (htw : matW m ≤ tw) (hz : th = 0 → tw = 0) :
    shape2 (padToShape z th tw m) = (th, tw) := by
  have hlen : (padToShape z th tw m).length = th := by
    rw [padToShape_length]; omega
  have hw : matW (padToShape z th tw m) = tw := by
    rcases Nat.eq_zero_or_pos th with h0 | hpos
    · unfold matW
      rw [nthD_ge _ _ _ (by omega)]
      simp [hz h0]
    · unfold matW
      rw [padToShape_rows z th tw m hrect _
        (nthD_mem _ 0 [] (by omega))]
      omega
  unfold shape2
  rw [hlen, hw]

theorem padToShape_cube_rect (z : List Nat) (th tw c : Nat) (m : Mat3)
    (hz : z.length = c) (hrect : RectCube m (matW m) c) :
    RectCube (padToShape z th tw m) (max (matW m) tw) c := by
  intro r hr
  refine ⟨padToShape_rows z th tw m (fun r hr => (hrect r hr).1) r hr, ?_⟩
  revert hr
  unfold padToShape
  split
  · exact fun hr p hp => (hrect r hr).2 p hp
  · intro hr p hp
    rw [List.mem_append] at hr
    rcases hr with hr | hr
    · obtain ⟨r0, hr0, rfl⟩ := List.mem_map.mp hr
      rw [List.mem_append] at hp
      rcases hp with hp | hp
      · exact (hrect r0 hr0).2 p hp
      · rw [List.eq_of_mem_replicate hp]; exact hz
    · rw [List.eq_of_mem_replicate hr] at hp
      rw [List.eq_of_mem_replicate hp]; exact hz

theorem chanOf_nil_or (m : Mat3) (hrect : RectCube m (matW m) c)
    (hw : matW m = 0) : chanOf m = 0 := by
  unfold chanOf
  rcases Nat.eq_zero_or_pos m.length with hm0 | hmpos
  · rw [nthD_ge m 0 [] (by omega)]
    rfl
  · have hlen : (nthD m 0 []).length = matW m :=
      (hrect _ (nthD_mem m 0 [] hmpos)).1
    rw [nthD_ge (nthD m 0 []) 0 [] (by omega)]
    rfl

theorem chanOf_padToShape (z : List Nat) (th tw c : Nat) (m : Mat3)
    (hz : z.length = c) (hrect : RectCube m (matW m) c) (hchan : chanOf m = c)
    (hth : m.length ≤ th) (htw : matW m ≤ tw) :
    chanOf (padToShape z th tw m) = c := by
  have hcube := padToShape_cube_rect z th tw c m hz hrect
  have hlen : (padToShape z th tw m).length = th := by
    rw [padToShape_length]; omega
  rcases Nat.eq_zero_or_pos th with hz0 | hpos
  · have hm : m = [] := List.length_eq_zero.mp (by omega)
    have hp : padToShape z th tw m = [] := List.length_eq_zero.mp (by omega)
    rw [hp]
    rw [hm] at hchan
    exact hchan
  · have hrow_mem := nthD_mem (padToShape z th tw m) 0 [] (by omega)
    obtain ⟨hrowlen, hpix⟩ := hcube _ hrow_mem
    rcases Nat.eq_zero_or_pos (max (matW m) tw) with hw0 | hwpos
    · have hcm : chanOf m = 0 := chanOf_nil_or m hrect (by omega)
      unfold chanOf
      rw [nthD_ge (nthD (padToShape z th tw m) 0 []) 0 [] (by omega)]
      rw [hcm] at hchan
      simpa using hchan
    · exact hpix _ (nthD_mem _ 0 [] (by omega))

/-! ## Stacking lemmas -/
theorem le_listMax (l : List Nat) (a : Nat) (h : a ∈ l) : a ≤ listMax l := by
  induction l with
  | nil => simp at h
  | cons b t ih =>
    rw [List.mem_cons] at h
    show a ≤ max b (listMax t)
    rcases h with rfl | h
    · exact Nat.le_max_left _ _
    · exact Nat.le_trans (ih h) (Nat.le_max_right _ _)

theorem listMax_le (l : List Nat) (b : Nat) (h : ∀ a ∈ l, a ≤ b) :
    listMax l ≤ b := by
  induction l with
  | nil => exact Nat.zero_le b
  | cons a t ih =>
    show max a (listMax t) ≤ b
    exact Nat.max_le.mpr ⟨h a (List.mem_cons_self _ _),
      ih fun x hx => h x (List.mem_cons_of_mem _ hx)⟩

theorem seqOpt_map_some {α β : Type} (g : β → α) (l : List β) :
    seqOpt (l.map fun b => some (g b)) = some (l.map g) := by
  induction l with
  | nil => rfl
  | cons b t ih => simp [seqOpt, ih]

theorem sameShapes2_of (ms : List Mat) (s : Nat × Nat)
    (h : ∀ m ∈ ms, shape2 m = s) : sameShapes2 ms = true := by
  cases ms with
  | nil => rfl
  | cons m rest =>
    unfold sameShapes2
    rw [List.all_eq_true]
    intro m2 hm2
    rw [decide_eq_true_eq, h m2 (List.mem_cons_of_mem _ hm2),
      h m (List.mem_cons_self _ _)]

theorem sameShapes3_of (ms : List Mat3) (s : Nat × Nat × Nat)
    (h : ∀ m ∈ ms, shape3of m = s) : sameShapes3 ms = true := by
  cases ms with
  | nil => rfl
  | cons m rest =>
    unfold sameShapes3
    rw [List.all_eq_true]
    intro m2 hm2
    rw [decide_eq_true_eq, h m2 (List.mem_cons_of_mem _ hm2),
      h m (List.mem_cons_self _ _)]

/-! ## Claim C10 -/
/-- C10: `pad_array_to_shape` never crops and preserves content: for every
rectangular 2-D input array and every 3-D (H, W, C) input array and every
target height and width, the output has height `max h target_h` and width
`max w target_w` with any extra channels unchanged (3-D output is again
rectangular with the same channel count `c`), the block at indices
`[0:h, 0:w]` equals the input array, all padded entries are zero (the
all-zero channel vector in the 3-D case), and when the target dimensions
do not exceed the input's the input is returned unchanged. -/
theorem c10_pad_never_crops :
    (∀ (m : Mat) (th tw : Nat), RectMat m (matW m) →
      ∃ p : Mat, pad_array_to_shape (.d2 m) th tw = .d2 p ∧
        p.length = max m.length th ∧
        (∀ r ∈ p, r.length = max (matW m) tw) ∧
        (∀ y x, y < m.length → x < matW m → ent0 p y x = ent0 m y x) ∧
        (∀ y x, y < max m.length th → x < max (matW m) tw →
          m.length ≤ y ∨ matW m ≤ x → ent0 p y x = 0) ∧
        (th ≤ m.length → tw ≤ matW m → p = m)) ∧
    (∀ (m : Mat3) (th tw c : Nat), RectCube m (matW m) c → chanOf m = c →
      ∃ p : Mat3, pad_array_to_shape (.d3 m) th tw = .d3 p ∧
        p.length = max m.length th ∧
        RectCube p (max (matW m) tw) c ∧
        (∀ y x, y < m.length → x < matW m → pixAt p y x = pixAt m y x) ∧
        (∀ y x, y < max m.length th → x < max (matW m) tw →
          m.length ≤ y ∨ matW m ≤ x → pixAt p y x = List.replicate c 0) ∧
        (th ≤ m.length → tw ≤ matW m → p = m)) := by
  constructor
  · intro m th tw hrect
    refine ⟨padToShape 0 th tw m, rfl, padToShape_length 0 th tw m,
      padToShape_rows 0 th tw m hrect, ?_, ?_,
      fun h1 h2 => padToShape_id 0 th tw m h1 h2⟩
    · intro y x hy hx
      exact padToShape_content 0 th tw m hrect y x 0 hy hx
    · intro y x hy hx hout
      exact padToShape_zero 0 th tw m hrect y x 0 hy hx hout
  · intro m th tw c hrect hchan
    have hz : (List.replicate (chanOf m) 0).length = c := by
      simp [hchan]
    refine ⟨padToShape (List.replicate (chanOf m) 0) th tw m, rfl,
      padToShape_length _ th tw m,
      padToShape_cube_rect _ th tw c m hz hrect, ?_, ?_,
      fun h1 h2 => padToShape_id _ th tw m h1 h2⟩
    · intro y x hy hx
      exact padToShape_content _ th tw m
        (fun r hr => (hrect r hr).1) y x [] hy hx
    · intro y x hy hx hout
      rw [show (List.replicate c 0 : List Nat) =
            List.replicate (chanOf m) 0 from by rw [hchan]]
      exact padToShape_zero _ th tw m
        (fun r hr => (hrect r hr).1) y x [] hy hx hout

/-- Witness for C10 at the concrete 2-D array `[[7]]` padded to 2 × 3 and
the 3-D array `[[[1, 2]]]` padded to 2 × 2. -/
theorem c10_pad_never_crops_witness :
    (RectMat [[7]] (matW [[7]]) ∧
      RectCube [[[1, 2]]] (matW [[[1, 2]]]) 2 ∧ chanOf [[[1, 2]]] = 2) ∧
    (∃ p : Mat, pad_array_to_shape (.d2 [[7]]) 2 3 = .d2 p ∧
      p.length = max (List.length [[7]]) 2 ∧
      (∀ r ∈ p, r.length = max (matW [[7]]) 3) ∧
      (∀ y x, y < List.length [[7]] → x < matW [[7]] →
        ent0 p y x = ent0 [[7]] y x) ∧
      (∀ y x, y < max (List.length [[7]]) 2 → x < max (matW [[7]]) 3 →
        List.length [[7]] ≤ y ∨ matW [[7]] ≤ x → ent0 p y x = 0) ∧
      (2 ≤ List.length [[7]] → 3 ≤ matW [[7]] → p = [[7]])) ∧
    (∃ p : Mat3, pad_array_to_shape (.d3 [[[1, 2]]]) 2 2 = .d3 p ∧
      p.length = max (List.length [[[1, 2]]]) 2 ∧
      RectCube p (max (matW [[[1, 2]]]) 2) 2 ∧
      (∀ y x, y < List.length [[[1, 2]]] → x < matW [[[1, 2]]] →
        pixAt p y x = pixAt [[[1, 2]]] y x) ∧
      (∀ y x, y < max (List.length [[[1, 2]]]) 2 →
        x < max (matW [[[1, 2]]]) 2 →
        List.length [[[1, 2]]] ≤ y ∨ matW [[[1, 2]]] ≤ x →
        pixAt p y x = List.replicate 2 0) ∧
      (2 ≤ List.length [[[1, 2]]] → 2 ≤ matW [[[1, 2]]] →
        p = [[[1, 2]]])) :=
  ⟨⟨by decide, by decide, by decide⟩,
    c10_pad_never_crops.1 [[7]] 2 3 (by decide),
    c10_pad_never_crops.2 [[[1, 2]]] 2 2 2 (by decide) (by decide)⟩

/-! ## Claim C2 -/
/-- Reduction: `stack_tile_arrays` on a non-empty list reduces to padding plus
`npStack`. -/
theorem stack_tile_arrays_ne_nil (arrays : List NpArr) (h : arrays ≠ []) :
    stack_tile_arrays arrays = npStack (arrays.map fun a =>
      pad_array_to_shape a (listMax (arrays.map shape0))
        (listMax (arrays.map shape1))) := by
  obtain ⟨a, rest, rfl⟩ := List.exists_cons_of_ne_nil h
  rfl

/-- Reduction: `npStack` on a non-empty mapped list of 2-D arrays. -/
theorem npStack_map_d2 (l : List Mat) (f : Mat → Mat) (hne : l ≠ []) :
    npStack (l.map fun m => NpArr.d2 (f m)) =
      if sameShapes2 (l.map f) then some (.d3 (l.map f)) else none := by
  obtain ⟨t0, ts, rfl⟩ := List.exists_cons_of_ne_nil hne
  rw [List.map_cons]
  rw [npStack]
  have harg : (NpArr.d2 (f t0) ::
      List.map (fun m => NpArr.d2 (f m)) ts).map asD2 =
      (t0 :: ts).map fun m => some (f m) := by
    rw [← List.map_cons (fun m => NpArr.d2 (f m)) t0 ts, List.map_map]
    rfl
  rw [harg, seqOpt_map_some]

/-- Reduction: `npStack` on a non-empty mapped list of 3-D arrays. -/
theorem npStack_map_d3 (l : List Mat3) (f : Mat3 → Mat3) (hne : l ≠ []) :
    npStack (l.map fun m => NpArr.d3 (f m)) =
      if sameShapes3 (l.map f) then some (.d4 (l.map f)) else none := by
  obtain ⟨t0, ts, rfl⟩ := List.exists_cons_of_ne_nil hne
  rw [List.map_cons]
  rw [npStack]
  have harg : (NpArr.d3 (f t0) ::
      List.map (fun m => NpArr.d3 (f m)) ts).map asD3 =
      (t0 :: ts).map fun m => some (f m) := by
    rw [← List.map_cons (fun m => NpArr.d3 (f m)) t0 ts, List.map_map]
    rfl
  rw [harg, seqOpt_map_some]

/-- Auxiliary reduction of `stack_tile_arrays` on a non-empty list of
2-D rectangular tiles. -/
theorem stack_d2_eq (tiles : List Mat) (hne : tiles ≠ [])
    (hrect : ∀ m ∈ tiles, RectMat m (matW m)) :
    stack_tile_arrays (tiles.map NpArr.d2) =
      some (.d3 (tiles.map fun m =>
        padToShape 0 (listMax (tiles.map List.length))
          (listMax (tiles.map matW)) m)) := by
  have hne2 : tiles.map NpArr.d2 ≠ [] := by
    intro h
    exact hne (List.map_eq_nil_iff.mp h)
  rw [stack_tile_arrays_ne_nil _ hne2]
  have hmap0 : (tiles.map NpArr.d2).map shape0 = tiles.map List.length := by
    rw [List.map_map]; rfl
  have hmap1 : (tiles.map NpArr.d2).map shape1 = tiles.map matW := by
    rw [List.map_map]; rfl
  rw [hmap0, hmap1]
  have hpadmap : (tiles.map NpArr.d2).map (fun a =>
      pad_array_to_shape a (listMax (tiles.map List.length))
        (listMax (tiles.map matW))) =
      tiles.map fun m => NpArr.d2 (padToShape 0
        (listMax (tiles.map List.length))
        (listMax (tiles.map matW)) m) := by
    rw [List.map_map]; rfl
  rw [hpadmap]
  rw [npStack_map_d2 tiles _ hne]
  have hshapes : sameShapes2 (tiles.map fun m => padToShape 0
      (listMax (tiles.map List.length))
      (listMax (tiles.map matW)) m) = true := by
    apply sameShapes2_of _ (listMax (tiles.map List.length),
      listMax (tiles.map matW))
    intro p hp
    obtain ⟨m, hm, rfl⟩ := List.mem_map.mp hp
    apply padToShape_shape2 _ _ _ _ (hrect m hm)
    · exact le_listMax _ _ (List.mem_map_of_mem _ hm)
    · exact le_listMax _ _ (List.mem_map_of_mem _ hm)
    · intro h0
      apply Nat.le_zero.mp
      apply listMax_le
      intro a ha
      obtain ⟨m2, hm2, rfl⟩ := List.mem_map.mp ha
      have : m2.length ≤ 0 := by
        rw [← h0]
        exact le_listMax _ _ (List.mem_map_of_mem _ hm2)
      have hm2nil : m2 = [] := List.length_eq_zero.mp (by omega)
      rw [hm2nil]
      exact Nat.le_refl 0
  rw [hshapes]
  rfl

/-- Auxiliary reduction of `stack_tile_arrays` on a non-empty list of
3-D rectangular tiles with common channel count `c`. -/
theorem stack_d3_eq (tiles : List Mat3) (c : Nat) (hne : tiles ≠ [])
    (hrect : ∀ m ∈ tiles, RectCube m (matW m) c ∧ chanOf m = c) :
    stack_tile_arrays (tiles.map NpArr.d3) =
      some (.d4 (tiles.map fun m =>
        padToShape (List.replicate (chanOf m) 0)
          (listMax (tiles.map List.length))
          (listMax (tiles.map matW)) m)) := by
  have hne2 : tiles.map NpArr.d3 ≠ [] := by
    intro h
    exact hne (List.map_eq_nil_iff.mp h)
  rw [stack_tile_arrays_ne_nil _ hne2]
  have hmap0 : (tiles.map NpArr.d3).map shape0 = tiles.map List.length := by
    rw [List.map_map]; rfl
  have hmap1 : (tiles.map NpArr.d3).map shape1 = tiles.map matW := by
    rw [List.map_map]; rfl
  rw [hmap0, hmap1]
  have hpadmap : (tiles.map NpArr.d3).map (fun a =>
      pad_array_to_shape a (listMax (tiles.map List.length))
        (listMax (tiles.map matW))) =
      tiles.map fun m => NpArr.d3 (padToShape
        (List.replicate (chanOf m) 0)
        (listMax (tiles.map List.length))
        (listMax (tiles.map matW)) m) := by
    rw [List.map_map]; rfl
  rw [hpadmap]
  rw [npStack_map_d3 tiles _ hne]
  have hW0 : listMax (tiles.map List.length) = 0 →
      listMax (tiles.map matW) = 0 := by
    intro h0
    apply Nat.le_zero.mp
    apply listMax_le
    intro a ha
    obtain ⟨m2, hm2, rfl⟩ := List.mem_map.mp ha
    have : m2.length ≤ 0 := by
      rw [← h0]
      exact le_listMax _ _ (List.mem_map_of_mem _ hm2)
    have hm2nil : m2 = [] := List.length_eq_zero.mp (by omega)
    rw [hm2nil]
    exact Nat.le_refl 0
  have hshapes : sameShapes3 (tiles.map fun m => padToShape
      (List.replicate (chanOf m) 0)
      (listMax (tiles.map List.length))
      (listMax (tiles.map matW)) m) = true := by
    apply sameShapes3_of _ (listMax (tiles.map List.length),
      listMax (tiles.map matW), c)
    intro p hp
    obtain ⟨m, hm, rfl⟩ := List.mem_map.mp hp
    have hzl : (List.replicate (chanOf m) 0).length = c := by
      simp [(hrect m hm).2]
    have hle0 : m.length ≤ listMax (tiles.map List.length) :=
      le_listMax _ _ (List.mem_map_of_mem _ hm)
    have hle1 : matW m ≤ listMax (tiles.map matW) :=
      le_listMax _ _ (List.mem_map_of_mem _ hm)
    have h2 := padToShape_shape2 (List.replicate (chanOf m) 0) _ _ m
      (fun r hr => ((hrect m hm).1 r hr).1) hle0 hle1 hW0
    have hc := chanOf_padToShape (List.replicate (chanOf m) 0) _ _ c m
      hzl (hrect m hm).1 (hrect m hm).2 hle0 hle1
    unfold shape3of
    unfold shape2 at h2
    have h2a := congrArg Prod.fst h2
    have h2b := congrArg Prod.snd h2
    simp only at h2a h2b
    rw [h2a, h2b, hc]
  rw [hshapes]
  rfl

/-- C2: tile stacking pads to a common bounding box: for the empty list
`stack_tile_arrays` returns `None`; for every non-empty list of
rectangular 2-D tiles (resp. 3-D (H, W, C) tiles with common channel
count `c`) it returns a stacked array whose first-axis length equals the
number of tiles and whose height and width equal the maximum tile height
and maximum tile width over the list, where each slice contains its
original tile unchanged in the top-left corner and zeros in the padded
region. -/
theorem c2_stack_tile_arrays :
    stack_tile_arrays [] = none ∧
    (∀ tiles : List Mat, tiles ≠ [] → (∀ m ∈ tiles, RectMat m (matW m)) →
      ∃ vol : Mat3,
        stack_tile_arrays (tiles.map NpArr.d2) = some (.d3 vol) ∧
        vol.length = tiles.length ∧
        (∀ s ∈ vol, s.length = listMax (tiles.map List.length) ∧
          ∀ r ∈ s, r.length = listMax (tiles.map matW)) ∧
        (∀ k, k < tiles.length →
          (∀ y x, y < (nthD tiles k []).length → x < matW (nthD tiles k []) →
            ent0 (nthD vol k []) y x = ent0 (nthD tiles k []) y x) ∧
          (∀ y x, y < listMax (tiles.map List.length) →
            x < listMax (tiles.map matW) →
            ((nthD tiles k []).length ≤ y ∨ matW (nthD tiles k []) ≤ x) →
            ent0 (nthD vol k []) y x = 0))) ∧
    (∀ (tiles : List Mat3) (c : Nat), tiles ≠ [] →
      (∀ m ∈ tiles, RectCube m (matW m) c ∧ chanOf m = c) →
      ∃ vol : Mat4,
        stack_tile_arrays (tiles.map NpArr.d3) = some (.d4 vol) ∧
        vol.length = tiles.length ∧
        (∀ s ∈ vol, s.length = listMax (tiles.map List.length) ∧
          RectCube s (listMax (tiles.map matW)) c) ∧
        (∀ k, k < tiles.length →
          (∀ y x, y < (nthD tiles k []).length → x < matW (nthD tiles k []) →
            pixAt (nthD vol k []) y x = pixAt (nthD tiles k []) y x) ∧
          (∀ y x, y < listMax (tiles.map List.length) →
            x < listMax (tiles.map matW) →
            ((nthD tiles k []).length ≤ y ∨ matW (nthD tiles k []) ≤ x) →
            pixAt (nthD vol k []) y x = List.replicate c 0))) := by
  refine ⟨rfl, ?_, ?_⟩
  · intro tiles hne hrect
    refine ⟨_, stack_d2_eq tiles hne hrect, by rw [List.length_map], ?_, ?_⟩
    · intro s hs
      obtain ⟨m, hm, rfl⟩ := List.mem_map.mp hs
      have hH := le_listMax _ _ (List.mem_map_of_mem List.length hm)
      have hW := le_listMax _ _ (List.mem_map_of_mem matW hm)
      constructor
      · rw [padToShape_length]
        omega
      · intro r hr
        rw [padToShape_rows _ _ _ _ (hrect m hm) r hr]
        omega
    · intro k hk
      have htile := nthD_mem tiles k [] hk
      have hH := le_listMax _ _ (List.mem_map_of_mem List.length htile)
      have hW := le_listMax _ _ (List.mem_map_of_mem matW htile)
      have hvol : nthD (tiles.map fun m =>
          padToShape 0 (listMax (tiles.map List.length))
            (listMax (tiles.map matW)) m) k [] =
          padToShape 0 (listMax (tiles.map List.length))
            (listMax (tiles.map matW)) (nthD tiles k []) :=
        nthD_map _ _ k [] [] hk
      constructor
      · intro y x hy hx
        unfold ent0
        rw [hvol]
        exact padToShape_content 0 _ _ _ (hrect _ htile) y x 0 hy hx
      · intro y x hy hx hout
        unfold ent0
        rw [hvol]
        exact padToShape_zero 0 _ _ _ (hrect _ htile) y x 0
          (by omega) (by omega) hout
  · intro tiles c hne hrect
    refine ⟨_, stack_d3_eq tiles c hne hrect, by rw [List.length_map], ?_, ?_⟩
    · intro s hs
      obtain ⟨m, hm, rfl⟩ := List.mem_map.mp hs
      have hH := le_listMax _ _ (List.mem_map_of_mem List.length hm)
      have hW := le_listMax _ _ (List.mem_map_of_mem matW hm)
      constructor
      · rw [padToShape_length]
        omega
      · have hzl : (List.replicate (chanOf m) 0).length = c := by
          simp [(hrect m hm).2]
        have hcube := padToShape_cube_rect (List.replicate (chanOf m) 0)
          (listMax (tiles.map List.length)) (listMax (tiles.map matW)) c m
          hzl (hrect m hm).1
        rw [show max (matW m) (listMax (tiles.map matW)) =
            listMax (tiles.map matW) from by omega] at hcube
        exact hcube
    · intro k hk
      have htile := nthD_mem tiles k [] hk
      have hH := le_listMax _ _ (List.mem_map_of_mem List.length htile)
      have hW := le_listMax _ _ (List.mem_map_of_mem matW htile)
      have hvol : nthD (tiles.map fun m =>
          padToShape (List.replicate (chanOf m) 0)
            (listMax (tiles.map List.length))
            (listMax (tiles.map matW)) m) k [] =
          padToShape (List.replicate (chanOf (nthD tiles k [])) 0)
            (listMax (tiles.map List.length))
            (listMax (tiles.map matW)) (nthD tiles k []) :=
        nthD_map _ _ k [] [] hk
      constructor
      · intro y x hy hx
        unfold pixAt
        rw [hvol]
        exact padToShape_content _ _ _ _
          (fun r hr => ((hrect _ htile).1 r hr).1) y x [] hy hx
      · intro y x hy hx hout
        unfold pixAt
        rw [hvol]
        rw [show (List.replicate c 0 : List Nat) =
            List.replicate (chanOf (nthD tiles k [])) 0 from by
          rw [(hrect _ htile).2]]
        exact padToShape_zero _ _ _ _
          (fun r hr => ((hrect _ htile).1 r hr).1) y x []
          (by omega) (by omega) hout

/-- Witness for C2 at the 2-D tile list `[[[1]], [[2,3],[4,5]]]` and the
3-D tile list `[[[[1, 2]]]]` with channel count 2. -/
theorem c2_stack_tile_arrays_witness :
    (([[[1]], [[2, 3], [4, 5]]] : List Mat) ≠ [] ∧
      (∀ m ∈ ([[[1]], [[2, 3], [4, 5]]] : List Mat), RectMat m (matW m)) ∧
      ([[[[1, 2]]]] : List Mat3) ≠ [] ∧
      (∀ m ∈ ([[[[1, 2]]]] : List Mat3),
        RectCube m (matW m) 2 ∧ chanOf m = 2)) ∧
    (∃ vol : Mat3,
      stack_tile_arrays
          (([[[1]], [[2, 3], [4, 5]]] : List Mat).map NpArr.d2) =
        some (.d3 vol) ∧ vol.length = 2) ∧
    (∃ vol : Mat4,
      stack_tile_arrays (([[[[1, 2]]]] : List Mat3).map NpArr.d3) =
        some (.d4 vol) ∧ vol.length = 1) := by
  refine ⟨⟨by decide, by decide, by decide, by decide⟩, ?_, ?_⟩
  · obtain ⟨vol, hv, hlen, _⟩ := c2_stack_tile_arrays.2.1
      [[[1]], [[2, 3], [4, 5]]] (by decide) (by decide)
    exact ⟨vol, hv, hlen⟩
  · obtain ⟨vol, hv, hlen, _⟩ := c2_stack_tile_arrays.2.2
      [[[[1, 2]]]] 2 (by decide) (by decide)
    exact ⟨vol, hv, hlen⟩

/-! ## Claim C9 -/
/-- C9, counterexample: as stated the claim fails in two ways.  (a) The
output is 1 where the collapsed value is 255 *after the uint8 cast*, not
where the collapsed value equals 255: the 2-D input `[[511]]` collapses
to itself (value 511 ≠ 255) yet binarizes to 1, because
`astype(np.uint8)` reduces 511 to 255.  (b) For an RGBA input whose
alpha channel is uniformly non-zero, the code takes the per-pixel
maximum of the *first three* channels only, not of all channels: the
input `[[[0, 0, 0, 255]]]` has per-pixel channel maximum 255 yet
binarizes to 0. -/
theorem c9_binarize_counterexample :
    (binarize_mask_array (.d2 [[511]]) = .d2 [[1]] ∧
      ent0 [[511]] 0 0 = 511 ∧ (511 : Nat) ≠ 255) ∧
    (binarize_mask_array (.d3 [[[0, 0, 0, 255]]]) = .d2 [[0]] ∧
      pixMax (pixAt [[[0, 0, 0, 255]]] 0 0) = 255) := by
  decide

/-- C9 (amended): `binarize_mask_array` is total on the model and
produces a binary 2-D result: for every 2-D input array and every
rectangular 3-D (H, W, C) input array with `C ≥ 1`, it returns a 2-D
uint8 array of the same height and width whose entries lie in {0, 1},
with value 1 exactly at positions where the collapsed single-channel
value, cast to uint8 (reduced modulo 256), equals 255.  An RGBA input
collapses via its alpha channel when the alpha channel contains both
zero and non-zero entries, and via the per-pixel maximum over its first
three (colour) channels otherwise; other 3-D inputs collapse via the
per-pixel maximum over all channels. -/
theorem c9_binarize_total_binary :
    (∀ m : Mat, ∃ b : Mat, binarize_mask_array (.d2 m) = .d2 b ∧
      b.length = m.length ∧
      (∀ y, y < m.length → (nthD b y []).length = (nthD m y []).length) ∧
      (∀ y x, y < m.length → x < (nthD m y []).length →
        ent0 b y x = if ent0 m y x % 256 = 255 then 1 else 0)) ∧
    (∀ (m : Mat3) (c : Nat), RectCube m (matW m) c → chanOf m = c →
      1 ≤ c →
      ∃ b : Mat, binarize_mask_array (.d3 m) = .d2 b ∧
        b.length = m.length ∧ RectMat b (matW m) ∧
        (∀ y x, y < m.length → x < matW m →
          ent0 b y x =
            if ent0 (collapse3 m) y x % 256 = 255 then 1 else 0) ∧
        (∀ y x, y < m.length → x < matW m →
          ent0 (collapse3 m) y x =
            if c = 4 then
              (if alphaMixed m then nthD (pixAt m y x) 3 0
               else pixMax ((pixAt m y x).take 3))
            else pixMax (pixAt m y x))) := by
  constructor
  · intro m
    refine ⟨binMask m, rfl, by rw [binMask, List.length_map], ?_, ?_⟩
    · intro y hy
      unfold binMask
      rw [nthD_map _ _ y [] [] hy, List.length_map]
    · intro y x hy hx
      unfold ent0 binMask
      rw [nthD_map _ _ y [] [] hy, nthD_map _ _ x 0 0 hx]
  · intro m c hrect hchan hc
    have hcol_len : (collapse3 m).length = m.length := by
      unfold collapse3
      split
      · split <;> rw [List.length_map]
      · rw [List.length_map]
    have hcol_rows : ∀ y, y < m.length →
        (nthD (collapse3 m) y []).length = matW m := by
      intro y hy
      unfold collapse3
      split
      · split
        · rw [nthD_map _ _ y [] [] hy, List.length_map]
          exact (hrect _ (nthD_mem m y [] hy)).1
        · rw [nthD_map _ _ y [] [] hy, List.length_map]
          exact (hrect _ (nthD_mem m y [] hy)).1
      · rw [nthD_map _ _ y [] [] hy, List.length_map]
        exact (hrect _ (nthD_mem m y [] hy)).1
    have hcol_rect : RectMat (collapse3 m) (matW m) := by
      intro r hr
      unfold collapse3 at hr
      split at hr
      · split at hr
        · obtain ⟨r1, hr1, rfl⟩ := List.mem_map.mp hr
          rw [List.length_map]
          exact (hrect _ hr1).1
        · obtain ⟨r1, hr1, rfl⟩ := List.mem_map.mp hr
          rw [List.length_map]
          exact (hrect _ hr1).1
      · obtain ⟨r1, hr1, rfl⟩ := List.mem_map.mp hr
        rw [List.length_map]
        exact (hrect _ hr1).1
    refine ⟨binMask (collapse3 m), rfl,
      by rw [binMask, List.length_map, hcol_len], ?_, ?_, ?_⟩
    · intro r hr
      obtain ⟨r0, hr0, rfl⟩ := List.mem_map.mp hr
      rw [List.length_map]
      exact hcol_rect r0 hr0
    · intro y x hy hx
      unfold ent0 binMask
      rw [nthD_map _ _ y [] [] (by rw [hcol_len]; exact hy)]
      rw [nthD_map _ _ x 0 0 (by rw [hcol_rows y hy]; exact hx)]
    · intro y x hy hx
      rw [← hchan]
      have hrow : (nthD m y []).length = matW m :=
        (hrect _ (nthD_mem m y [] hy)).1
      unfold ent0 collapse3 pixAt
      split
      · split
        · rw [nthD_map _ _ y [] [] hy,
            nthD_map _ _ x 0 [] (by rw [hrow]; exact hx)]
        · rw [nthD_map _ _ y [] [] hy,
            nthD_map _ _ x 0 [] (by rw [hrow]; exact hx)]
      · rw [nthD_map _ _ y [] [] hy,
          nthD_map _ _ x 0 [] (by rw [hrow]; exact hx)]

/-- Witness for C9 (amended) at the 2-D array `[[255, 7]]` and the 3-D
RGBA array `[[[0, 0, 0, 255], [9, 255, 0, 255]]]`. -/
theorem c9_binarize_total_binary_witness :
    (RectCube [[[0, 0, 0, 255], [9, 255, 0, 255]]]
        (matW [[[0, 0, 0, 255], [9, 255, 0, 255]]]) 4 ∧
      chanOf [[[0, 0, 0, 255], [9, 255, 0, 255]]] = 4 ∧ 1 ≤ 4) ∧
    (∃ b : Mat, binarize_mask_array (.d2 [[255, 7]]) = .d2 b ∧
      b.length = 1) ∧
    (∃ b : Mat,
      binarize_mask_array (.d3 [[[0, 0, 0, 255], [9, 255, 0, 255]]]) =
        .d2 b ∧ b.length = 1) := by
  refine ⟨⟨by decide, by decide, by decide⟩, ?_, ?_⟩
  · obtain ⟨b, hb, hlen, _⟩ := c9_binarize_total_binary.1 [[255, 7]]
    exact ⟨b, hb, hlen⟩
  · obtain ⟨b, hb, hlen, _⟩ := c9_binarize_total_binary.2
      [[[0, 0, 0, 255], [9, 255, 0, 255]]] 4 (by decide) (by decide)
      (by decide)
    exact ⟨b, hb, hlen⟩

/-! ## Lemmas on the export loop -/
theorem exportLoopGo_nthD (caseName className imgPre tag ext : List Char)
    (tileDims : List (Nat × Nat × Nat)) (mask3d : Mat3) :
    ∀ (names : List (List Char)) (idx0 k : Nat), k < names.length →
    idx0 + k < mask3d.length →
    nthD (exportLoopGo caseName className imgPre tag ext tileDims mask3d
        idx0 names) k ([], []) =
      (outName caseName className ((nthD names k []).drop imgPre.length)
        tag ext,
       toBinary255 (cropSlice (List.lookup (idx0 + k) tileDims)
         (nthD mask3d (idx0 + k) []))) := by
  intro names
  induction names with
  | nil => intro idx0 k hk _; simp at hk
  | cons stem rest ih =>
    intro idx0 k hk hm
    rw [exportLoopGo]
    rw [if_neg (by omega)]
    cases k with
    | zero => rfl
    | succ k =>
      show nthD (exportLoopGo _ _ _ _ _ _ _ (idx0 + 1) rest) k ([], []) = _
      rw [ih (idx0 + 1) k
        (by simp only [List.length_cons] at hk; omega) (by omega)]
      rw [show idx0 + 1 + k = idx0 + (k + 1) from by omega]
      rfl

theorem mem_exportLoopGo (caseName className imgPre tag ext : List Char)
    (tileDims : List (Nat × Nat × Nat)) (mask3d : Mat3) :
    ∀ (names : List (List Char)) (idx0 : Nat) (p : List Char × Mat),
    p ∈ exportLoopGo caseName className imgPre tag ext tileDims mask3d
        idx0 names →
    ∃ k, k < names.length ∧ idx0 + k < mask3d.length ∧
      p = (outName caseName className ((nthD names k []).drop
            imgPre.length) tag ext,
           toBinary255 (cropSlice (List.lookup (idx0 + k) tileDims)
             (nthD mask3d (idx0 + k) []))) := by
  intro names
  induction names with
  | nil => intro idx0 p hp; simp [exportLoopGo] at hp
  | cons stem rest ih =>
    intro idx0 p hp
    rw [exportLoopGo] at hp
    split at hp
    · simp at hp
    · next hbreak =>
      rw [List.mem_cons] at hp
      rcases hp with hp | hp
      · exact ⟨0, by simp, by omega, by simpa using hp⟩
      · obtain ⟨k, hk, hkm, rfl⟩ := ih (idx0 + 1) p hp
        refine ⟨k + 1, by simpa using Nat.succ_lt_succ hk, by omega, ?_⟩
        rw [show idx0 + (k + 1) = idx0 + 1 + k from by omega]
        rfl

theorem toBinary255_mem (s : Mat) :
    ∀ r ∈ toBinary255 s, ∀ v ∈ r, v = 0 ∨ v = 255 := by
  intro r hr v hv
  obtain ⟨r0, _, rfl⟩ := List.mem_map.mp hr
  obtain ⟨v0, _, rfl⟩ := List.mem_map.mp hv
  split
  · right; rfl
  · left; rfl

theorem ent0_toBinary255 (s : Mat) (y x : Nat) :
    ent0 (toBinary255 s) y x = if 0 < ent0 s y x then 255 else 0 := by
  unfold ent0 toBinary255
  rcases Nat.lt_or_ge y s.length with hy | hy
  · rw [nthD_map _ _ y [] [] hy]
    rcases Nat.lt_or_ge x (nthD s y []).length with hx | hx
    · rw [nthD_map _ _ x 0 0 hx]
    · have h1 : nthD ((nthD s y []).map fun v =>
          if 0 < v then 255 else 0) x 0 = 0 :=
        nthD_ge _ _ _ (by rw [List.length_map]; exact hx)
      have h2 : nthD (nthD s y []) x 0 = 0 := nthD_ge _ _ _ hx
      rw [h1, h2]
      rfl
  · have h1 : nthD (s.map fun r => r.map fun v =>
        if 0 < v then 255 else 0) y [] = [] :=
      nthD_ge _ _ _ (by rw [List.length_map]; exact hy)
    have h2 : nthD s y [] = [] := nthD_ge _ _ _ hy
    rw [h1, h2]
    simp [nthD_nil]

theorem toBinary255_crop (h w : Nat) (s : Mat) :
    toBinary255 (cropSlice (some (h, w)) s) =
      ((toBinary255 s).take h).map fun r => r.take w := by
  unfold toBinary255 cropSlice
  rw [List.map_map, ← List.map_take, List.map_map]
  apply List.map_congr_left
  intro r _
  simp [List.map_take]

/-! ## Claim C3 -/
/-- C3: export crops away stacking padding using the mapping: for every
slice index (within both the tile list and the exported labelmap) for
which the original tile's dimensions `(h, w)` were recorded from the
corresponding image file, the mask slice written for that tile is the
(0/255-binarized) exported labelmap slice restricted to its first `h`
rows and first `w` columns; slices whose index has no recorded
dimensions are written uncropped. -/
theorem c3_export_crops (caseName className imgPre tag ext : List Char)
    (tileDims : List (Nat × Nat × Nat)) (mask3d : Mat3)
    (tileNames : List (List Char)) (idx : Nat)
    (h1 : idx < tileNames.length) (h2 : idx < mask3d.length) :
    (∀ h w, List.lookup idx tileDims = some (h, w) →
      nthD (exportSegment caseName className imgPre tag ext tileDims
          mask3d tileNames) idx ([], []) =
        (outName caseName className
           ((nthD tileNames idx []).drop imgPre.length) tag ext,
         ((toBinary255 (nthD mask3d idx [])).take h).map fun r =>
           r.take w)) ∧
    (List.lookup idx tileDims = none →
      nthD (exportSegment caseName className imgPre tag ext tileDims
          mask3d tileNames) idx ([], []) =
        (outName caseName className
           ((nthD tileNames idx []).drop imgPre.length) tag ext,
         toBinary255 (nthD mask3d idx []))) := by
  have hbase := exportLoopGo_nthD caseName className imgPre tag ext
    tileDims mask3d tileNames 0 idx h1 (by omega)
  rw [Nat.zero_add] at hbase
  constructor
  · intro h w hl
    unfold exportSegment
    rw [hbase, hl, toBinary255_crop]
  · intro hl
    unfold exportSegment
    rw [hbase, hl]
    rfl

/-- Witness for C3 at one tile, a 2 × 2 labelmap slice and recorded
dimensions (1, 1). -/
theorem c3_export_crops_witness :
    ((0 : Nat) < 1 ∧ (0 : Nat) < 1 ∧
      List.lookup 0 [((0 : Nat), (1 : Nat), (1 : Nat))] = some (1, 1)) ∧
    nthD (exportSegment ['c'] ['k'] [] ['T'] [] [(0, 1, 1)]
        [[[5, 0], [7, 9]]] [['a']]) 0 ([], []) =
      (outName ['c'] ['k'] ((nthD [['a']] 0 []).drop 0) ['T'] [],
       ((toBinary255 (nthD [[[5, 0], [7, 9]]] 0 [])).take 1).map fun r =>
         r.take 1) :=
  ⟨⟨by decide, by decide, by decide⟩,
    (c3_export_crops ['c'] ['k'] [] ['T'] [] [(0, 1, 1)] [[[5, 0], [7, 9]]]
      [['a']] 0 (by decide) (by decide)).1 1 1 (by decide)⟩

/-! ## Claim C7 -/
/-- C7: exported masks are binary: every mask written by the per-segment
export loop is a single-channel (2-D) array whose values are all 0 or
255 (hence uint8), equal to the 0/255 binarization of its (possibly
cropped) exported labelmap slice, with 255 exactly at the positions
where that labelmap slice is strictly positive. -/
theorem c7_masks_binary (caseName className imgPre tag ext : List Char)
    (tileDims : List (Nat × Nat × Nat)) (mask3d : Mat3)
    (tileNames : List (List Char)) :
    ∀ p ∈ exportSegment caseName className imgPre tag ext tileDims mask3d
        tileNames,
      ∃ idx, idx < mask3d.length ∧
        p.2 = toBinary255 (cropSlice (List.lookup idx tileDims)
          (nthD mask3d idx [])) ∧
        (∀ r ∈ p.2, ∀ v ∈ r, v = 0 ∨ v = 255) ∧
        (∀ y x, ent0 p.2 y x =
          if 0 < ent0 (cropSlice (List.lookup idx tileDims)
              (nthD mask3d idx [])) y x then 255 else 0) := by
  intro p hp
  obtain ⟨k, hk, hkm, rfl⟩ := mem_exportLoopGo caseName className imgPre
    tag ext tileDims mask3d tileNames 0 p hp
  exact ⟨0 + k, hkm, rfl, toBinary255_mem _,
    fun y x => ent0_toBinary255 _ y x⟩

/-- Witness for C7 at a singleton export. -/
theorem c7_masks_binary_witness :
    ((outName ['c'] ['k'] ['a'] ['T'] [], toBinary255 [[5, 0], [7, 9]]) ∈
      exportSegment ['c'] ['k'] [] ['T'] [] [] [[[5, 0], [7, 9]]] [['a']]) ∧
    (∃ idx, idx < List.length [[[5, 0], [7, 9]]] ∧
      (outName ['c'] ['k'] ['a'] ['T'] [], toBinary255 [[5, 0], [7, 9]]).2 =
        toBinary255 (cropSlice
          (List.lookup idx ([] : List (Nat × Nat × Nat)))
          (nthD [[[5, 0], [7, 9]]] idx [])) ∧
      (∀ r ∈ (outName ['c'] ['k'] ['a'] ['T'] [],
        toBinary255 [[5, 0], [7, 9]]).2, ∀ v ∈ r, v = 0 ∨ v = 255) ∧
      (∀ y x, ent0 (outName ['c'] ['k'] ['a'] ['T'] [],
          toBinary255 [[5, 0], [7, 9]]).2 y x =
        if 0 < ent0 (cropSlice
            (List.lookup idx ([] : List (Nat × Nat × Nat)))
            (nthD [[[5, 0], [7, 9]]] idx [])) y x then 255 else 0)) :=
  ⟨by decide,
    c7_masks_binary ['c'] ['k'] [] ['T'] [] [] [[[5, 0], [7, 9]]] [['a']]
      (outName ['c'] ['k'] ['a'] ['T'] [], toBinary255 [[5, 0], [7, 9]])
      (by decide)⟩

/-! ## Claim C8 -/
/-- C8, counterexample: a non-empty tag does *not* make every output
path differ from every original mask path: an original mask whose tileID
happens to end in the tag collides with the export of the shorter
tileID.  With tag `"t"`, the export for tileID `"a"` is written to
`<case>_<class>_at<ext>`, which is exactly the original mask path of
tileID `"at"` — so that pre-existing mask file would be overwritten. -/
theorem c8_tag_counterexample :
    (['t'] : List Char) ≠ [] ∧
    outName ['c'] ['k'] ['a'] ['t'] ['.', 'p', 'n', 'g'] =
      maskFileName ['c'] ['k'] ['a', 't'] ['.', 'p', 'n', 'g'] := by
  decide

/-- C8 (amended): every output name written by the per-segment export
loop has the form `<case>_<class>_<tileID><tag><ext>`, and for any
non-empty tag such a name differs from every original mask path
`<case>_<class>_<tileID'><ext>` whose tileID' is not the export's
tileID followed by the tag; in particular (taking `tileID' = tileID`)
no exported file replaces the original mask of the same tile. -/
theorem c8_tagged_outputs_distinct :
    (∀ (caseName className imgPre tag ext : List Char)
      (tileDims : List (Nat × Nat × Nat)) (mask3d : Mat3)
      (tileNames : List (List Char)),
      ∀ p ∈ exportSegment caseName className imgPre tag ext tileDims
          mask3d tileNames,
        ∃ stem, stem ∈ tileNames ∧
          p.1 = outName caseName className (stem.drop imgPre.length)
            tag ext) ∧
    (∀ caseName className t t2 tag ext : List Char, tag ≠ [] →
      t2 ≠ t ++ tag →
      outName caseName className t tag ext ≠
        maskFileName caseName className t2 ext) := by
  constructor
  · intro caseName className imgPre tag ext tileDims mask3d tileNames p hp
    obtain ⟨k, hk, _, rfl⟩ := mem_exportLoopGo caseName className imgPre
      tag ext tileDims mask3d tileNames 0 p hp
    exact ⟨nthD tileNames k [], nthD_mem _ _ _ hk, rfl⟩
  · intro caseName className t t2 tag ext htag hne heq
    unfold outName maskFileName at heq
    have heq2 : (caseName ++ ['_'] ++ className ++ ['_']) ++
        (t ++ (tag ++ ext)) =
        (caseName ++ ['_'] ++ className ++ ['_']) ++ (t2 ++ ext) := by
      simpa [List.append_assoc] using heq
    have heq3 := List.append_cancel_left heq2
    have heq4 : (t ++ tag) ++ ext = t2 ++ ext := by
      simpa [List.append_assoc] using heq3
    exact hne (List.append_cancel_right heq4).symm

/-- Witness for C8 (amended): the export for tile `"a"` with tag `"t"`
cannot be the original mask file of tile `"b"`. -/
theorem c8_tagged_outputs_distinct_witness :
    ((outName ['c'] ['k'] ['a'] ['t'] [], toBinary255 [[5]]) ∈
      exportSegment ['c'] ['k'] [] ['t'] [] [] [[[5]]] [['a']]) ∧
    (∃ stem, stem ∈ [['a']] ∧
      (outName ['c'] ['k'] ['a'] ['t'] [], toBinary255 [[5]]).1 =
        outName ['c'] ['k'] (stem.drop 0) ['t'] []) ∧
    ((['t'] : List Char) ≠ [] ∧ (['b'] : List Char) ≠ ['a'] ++ ['t'] ∧
      outName ['c'] ['k'] ['a'] ['t'] ['.'] ≠
        maskFileName ['c'] ['k'] ['b'] ['.']) :=
  ⟨by decide,
    c8_tagged_outputs_distinct.1 ['c'] ['k'] [] ['t'] [] [] [[[5]]] [['a']]
      (outName ['c'] ['k'] ['a'] ['t'] [], toBinary255 [[5]]) (by decide),
    by decide, by decide,
    c8_tagged_outputs_distinct.2 ['c'] ['k'] ['a'] ['b'] ['t'] ['.']
      (by decide) (by decide)⟩

theorem startsWithL_iff (p : List Char) :
    ∀ s, startsWithL p s = true ↔ ∃ r, s = p ++ r := by
  induction p with
  | nil =>
    intro s
    simp [startsWithL]
  | cons a t ih =>
    intro s
    cases s with
    | nil =>
      constructor
      · intro h; exact absurd h (by simp [startsWithL])
      · rintro ⟨r, hr⟩; simp at hr
    | cons b s' =>
      rw [show startsWithL (a :: t) (b :: s') =
          ((a == b) && startsWithL t s') from rfl]
      rw [Bool.and_eq_true, beq_iff_eq, ih s']
      constructor
      · rintro ⟨rfl, r, rfl⟩
        exact ⟨r, rfl⟩
      · rintro ⟨r, hr⟩
        rw [List.cons_append] at hr
        cases hr
        exact ⟨rfl, r, rfl⟩

theorem lookup_mem {β : Type} [DecidableEq β]
    {l : List (List Char × β)} {k : List Char} {v : β}
    (h : List.lookup k l = some v) : (k, v) ∈ l := by
  induction l with
  | nil => simp [List.lookup] at h
  | cons p rest ih =>
    obtain ⟨k', v'⟩ := p
    rw [List.lookup] at h
    split at h
    · next hbeq =>
      rw [beq_iff_eq] at hbeq
      cases h
      subst hbeq
      exact List.mem_cons_self _ _
    · exact List.mem_cons_of_mem _ (ih h)

theorem lookup_iff_mem_of_uniq {β : Type} [DecidableEq β]
    (l : List (List Char × β)) (k : List Char) (v : β)
    (huniq : ∀ p ∈ l, p.1 = k → p.2 = v) :
    List.lookup k l = some v ↔ (k, v) ∈ l := by
  induction l with
  | nil => simp [List.lookup]
  | cons p rest ih =>
    obtain ⟨k', v'⟩ := p
    rw [List.lookup]
    split
    · next hbeq =>
      rw [beq_iff_eq] at hbeq
      subst hbeq
      have hv := huniq (k, v') (List.mem_cons_self _ _) rfl
      simp only at hv
      subst hv
      simp
    · next hbeq =>
      have hkk : k' ≠ k := by
        intro hk
        rw [hk] at hbeq
        simp at hbeq
      rw [ih fun p hp => huniq p (List.mem_cons_of_mem _ hp)]
      rw [List.mem_cons]
      constructor
      · exact Or.inr
      · rintro (hp | hp)
        · cases hp
          exact absurd rfl hkk
        · exact hp

/-- Membership in `build_mask_index` characterized. -/
theorem mem_build_mask_index (caseName className ext : List Char)
    (dirFiles : List (List Char)) (suffix nm : List Char) :
    (suffix, nm) ∈ build_mask_index caseName className ext dirFiles ↔
      nm ∈ dirFiles ∧ endsWithL ext nm = true ∧
        nm = maskPre caseName className ++ suffix := by
  unfold build_mask_index
  rw [List.mem_filterMap]
  constructor
  · rintro ⟨a, ha, hfa⟩
    rw [List.mem_filter] at ha
    split at hfa
    · next hpre =>
      cases hfa
      obtain ⟨r, hr⟩ := (startsWithL_iff _ _).mp hpre
      refine ⟨ha.1, ha.2, ?_⟩
      rw [hr, List.drop_left]
    · cases hfa
  · rintro ⟨hmem, hext, rfl⟩
    refine ⟨maskPre caseName className ++ suffix,
      List.mem_filter.mpr ⟨hmem, hext⟩, ?_⟩
    rw [if_pos ((startsWithL_iff _ _).mpr ⟨suffix, rfl⟩)]
    rw [List.drop_left]

/-- Every index entry's value is the prefix followed by its key. -/
theorem build_mask_index_val (caseName className ext : List Char)
    (dirFiles : List (List Char)) :
    ∀ p ∈ build_mask_index caseName className ext dirFiles,
      p.2 = maskPre caseName className ++ p.1 := by
  intro p hp
  obtain ⟨suffix, nm⟩ := p
  exact ((mem_build_mask_index caseName className ext dirFiles
    suffix nm).mp hp).2.2

/-! ## Claim C6 -/
/-- C6: the filename convention `<case>/<class>/<case>_<class>_<tileID>.png`
governs matching: `build_mask_index` indexes exactly the files of the
class directory that match the extension and start with
`<case>_<class>_`, keyed by the remaining tileID suffix; and the mask
lookup performed by `main` for an image tile (key: the tile name after
the `<case>_<HE-folder>_` prefix) succeeds with mask file `nm` if and
only if `nm` is a file of the class directory matching the extension
whose tileID suffix equals the tile's suffix. -/
theorem c6_filename_convention (caseName className heFolder ext : List Char)
    (dirFiles : List (List Char)) (tileName nm suffix : List Char) :
    ((suffix, nm) ∈ build_mask_index caseName className ext dirFiles ↔
      nm ∈ dirFiles ∧ endsWithL ext nm = true ∧
        nm = maskPre caseName className ++ suffix) ∧
    (List.lookup (tileName.drop (hePre caseName heFolder).length)
        (build_mask_index caseName className ext dirFiles) = some nm ↔
      nm ∈ dirFiles ∧ endsWithL ext nm = true ∧
        nm = maskPre caseName className ++
          tileName.drop (hePre caseName heFolder).length) := by
  refine ⟨mem_build_mask_index caseName className ext dirFiles suffix nm, ?_⟩
  constructor
  · intro h
    exact (mem_build_mask_index caseName className ext dirFiles _ nm).mp
      (lookup_mem h)
  · intro h
    rw [lookup_iff_mem_of_uniq _ _ _ (fun p hp hk => by
      rw [build_mask_index_val caseName className ext dirFiles p hp, hk,
        h.2.2])]
    exact (mem_build_mask_index caseName className ext dirFiles _ nm).mpr h

/-- Witness for C6 at a two-file directory. -/
theorem c6_filename_convention_witness :
    (['c', '_', 'k', '_', 'a', '.'] ∈
        (([['c', '_', 'k', '_', 'a', '.'], ['x', '.']]) :
          List (List Char)) ∧
      endsWithL ['.'] ['c', '_', 'k', '_', 'a', '.'] = true ∧
      ['c', '_', 'k', '_', 'a', '.'] = maskPre ['c'] ['k'] ++ ['a', '.']) ∧
    ((['a', '.'], ['c', '_', 'k', '_', 'a', '.']) ∈
      build_mask_index ['c'] ['k'] ['.']
        [['c', '_', 'k', '_', 'a', '.'], ['x', '.']]) ∧
    List.lookup (['c', '_', 'h', '_', 'a', '.'].drop
        (hePre ['c'] ['h']).length)
      (build_mask_index ['c'] ['k'] ['.']
        [['c', '_', 'k', '_', 'a', '.'], ['x', '.']]) =
      some ['c', '_', 'k', '_', 'a', '.'] := by
  refine ⟨⟨by decide, by decide, by decide⟩, ?_, ?_⟩
  · exact ((c6_filename_convention ['c'] ['k'] ['h'] ['.']
      [['c', '_', 'k', '_', 'a', '.'], ['x', '.']]
      ['c', '_', 'h', '_', 'a', '.'] ['c', '_', 'k', '_', 'a', '.']
      ['a', '.']).1).mpr ⟨by decide, by decide, by decide⟩
  · exact ((c6_filename_convention ['c'] ['k'] ['h'] ['.']
      [['c', '_', 'k', '_', 'a', '.'], ['x', '.']]
      ['c', '_', 'h', '_', 'a', '.'] ['c', '_', 'k', '_', 'a', '.']
      ['a', '.']).2).mpr ⟨by decide, by decide, by decide⟩

/-! ## Claim C4 -/
/-- C4: missing files and directories are reported and fatal: if the
`--root` folder given to `automated_loading_batch.py` is not an existing
directory, its `main` raises `FileNotFoundError` before loading anything
(the check precedes the case loop); if the `--scene` file given to
`export_segmentations.py` does not exist, it raises `FileNotFoundError`
before the scene is loaded or anything is exported, and likewise when
the `--root` folder does not exist. -/
theorem c4_missing_paths_fatal :
    (∀ (ext heFolder : List Char)
      (loadImage loadMaskRaw : List Char → Option NpArr)
      (fsIndex : List Char → List Char → List Char → Option (List Char))
      (cases : List CaseInput),
      batchMain false ext heFolder loadImage loadMaskRaw fsIndex cases =
        .error (.fileNotFound msgRootNotFound)) ∧
    (∀ (rootIsDir : Bool) (heFolder ext tag : List Char)
      (segNodes : List SegNodeM) (volumes : List SceneVolume)
      (dimsOf : List Char → Option (Nat × Nat)),
      exportMain false rootIsDir heFolder ext tag segNodes volumes
          dimsOf =
        .error (.fileNotFound msgSceneNotFound)) ∧
    (∀ (heFolder ext tag : List Char) (segNodes : List SegNodeM)
      (volumes : List SceneVolume)
      (dimsOf : List Char → Option (Nat × Nat)),
      exportMain true false heFolder ext tag segNodes volumes dimsOf =
        .error (.fileNotFound msgRootNotFound)) :=
  ⟨fun _ _ _ _ _ _ => rfl, fun _ _ _ _ _ _ _ => rfl,
    fun _ _ _ _ _ _ => rfl⟩

/-! ## Lemmas for claim C5 -/
theorem processTile_none_iff (ext imgPre : List Char)
    (classDirs : List (List Char))
    (loadImage loadMaskRaw : List Char → Option NpArr)
    (maskIndex : List Char → List Char → Option (List Char))
    (nm : List Char) :
    processTile ext imgPre classDirs loadImage loadMaskRaw maskIndex nm =
      none ↔ loadImage nm = none := by
  unfold processTile
  cases loadImage nm <;> simp

theorem loadCaseTiles_append (ext imgPre : List Char)
    (classDirs : List (List Char))
    (loadImage loadMaskRaw : List Char → Option NpArr)
    (maskIndex : List Char → List Char → Option (List Char))
    (l1 l2 : List (List Char)) :
    loadCaseTiles ext imgPre classDirs loadImage loadMaskRaw maskIndex
        (l1 ++ l2) =
      ((loadCaseTiles ext imgPre classDirs loadImage loadMaskRaw
          maskIndex l1).1 ++
        (loadCaseTiles ext imgPre classDirs loadImage loadMaskRaw
          maskIndex l2).1,
       (loadCaseTiles ext imgPre classDirs loadImage loadMaskRaw
          maskIndex l1).2 ++
        (loadCaseTiles ext imgPre classDirs loadImage loadMaskRaw
          maskIndex l2).2) := by
  induction l1 with
  | nil => simp [loadCaseTiles]
  | cons nm rest ih =>
    show loadCaseTiles _ _ _ _ _ _ (nm :: (rest ++ l2)) = _
    cases hpt : processTile ext imgPre classDirs loadImage loadMaskRaw
        maskIndex nm with
    | none =>
      rw [loadCaseTiles, hpt, ih, loadCaseTiles, hpt]
      simp
    | some t =>
      rw [loadCaseTiles, hpt, ih, loadCaseTiles, hpt]
      simp

theorem loadCaseTiles_cons_fail (ext imgPre : List Char)
    (classDirs : List (List Char))
    (loadImage loadMaskRaw : List Char → Option NpArr)
    (maskIndex : List Char → List Char → Option (List Char))
    (bad : List Char) (post : List (List Char))
    (hbad : loadImage bad = none) :
    loadCaseTiles ext imgPre classDirs loadImage loadMaskRaw maskIndex
        (bad :: post) =
      ((loadCaseTiles ext imgPre classDirs loadImage loadMaskRaw
          maskIndex post).1,
       .warnImageLoadFailed bad ::
        (loadCaseTiles ext imgPre classDirs loadImage loadMaskRaw
          maskIndex post).2) := by
  rw [loadCaseTiles,
    (processTile_none_iff ext imgPre classDirs loadImage loadMaskRaw
      maskIndex bad).mpr hbad]

theorem loadCaseTiles_events (ext imgPre : List Char)
    (classDirs : List (List Char))
    (loadImage loadMaskRaw : List Char → Option NpArr)
    (maskIndex : List Char → List Char → Option (List Char)) :
    ∀ files : List (List Char),
    ∀ e ∈ (loadCaseTiles ext imgPre classDirs loadImage loadMaskRaw
        maskIndex files).2,
      ∃ nm, nm ∈ files ∧ e = .warnImageLoadFailed nm ∧
        loadImage nm = none := by
  intro files
  induction files with
  | nil => intro e he; simp [loadCaseTiles] at he
  | cons nm rest ih =>
    intro e he
    cases hpt : processTile ext imgPre classDirs loadImage loadMaskRaw
        maskIndex nm with
    | none =>
      rw [loadCaseTiles, hpt] at he
      rcases List.mem_cons.mp he with rfl | he'
      · exact ⟨nm, List.mem_cons_self _ _, rfl,
          (processTile_none_iff _ _ _ _ _ _ _).mp hpt⟩
      · obtain ⟨nm2, h1, h2, h3⟩ := ih e he'
        exact ⟨nm2, List.mem_cons_of_mem _ h1, h2, h3⟩
    | some t =>
      rw [loadCaseTiles, hpt] at he
      obtain ⟨nm2, h1, h2, h3⟩ := ih e he
      exact ⟨nm2, List.mem_cons_of_mem _ h1, h2, h3⟩

theorem processTile_masks (ext imgPre : List Char)
    (classDirs : List (List Char))
    (loadImage loadMaskRaw : List Char → Option NpArr)
    (maskIndex : List Char → List Char → Option (List Char))
    (nm : List Char) (img : NpArr) (stem : List Char)
    (masks : List (List Char × NpArr))
    (h : processTile ext imgPre classDirs loadImage loadMaskRaw maskIndex
      nm = some (img, stem, masks)) :
    ∀ cn ∈ classDirs,
      (maskIndex cn (nm.drop imgPre.length) = none →
        (cn, zerosArr img) ∈ masks) ∧
      (∀ mp, maskIndex cn (nm.drop imgPre.length) = some mp →
        loadMaskRaw mp = none → (cn, zerosArr img) ∈ masks) ∧
      (∀ mp raw, maskIndex cn (nm.drop imgPre.length) = some mp →
        loadMaskRaw mp = some raw →
        (cn, binarize_mask_array raw) ∈ masks) := by
  unfold processTile at h
  cases hL : loadImage nm with
  | none => rw [hL] at h; cases h
  | some img' =>
    rw [hL] at h
    injection h with h
    cases h
    intro cn hcn
    refine ⟨?_, ?_, ?_⟩
    · intro hmi
      have hm := List.mem_map_of_mem (fun cn =>
        (cn, match maskIndex cn (nm.drop imgPre.length) with
          | some mp =>
            match loadMaskRaw mp with
            | some raw => binarize_mask_array raw
            | none => zerosArr img
          | none => zerosArr img)) hcn
      simp only [hmi] at hm
      exact hm
    · intro mp hmi hload
      have hm := List.mem_map_of_mem (fun cn =>
        (cn, match maskIndex cn (nm.drop imgPre.length) with
          | some mp =>
            match loadMaskRaw mp with
            | some raw => binarize_mask_array raw
            | none => zerosArr img
          | none => zerosArr img)) hcn
      simp only [hmi, hload] at hm
      exact hm
    · intro mp raw hmi hload
      have hm := List.mem_map_of_mem (fun cn =>
        (cn, match maskIndex cn (nm.drop imgPre.length) with
          | some mp =>
            match loadMaskRaw mp with
            | some raw => binarize_mask_array raw
            | none => zerosArr img
          | none => zerosArr img)) hcn
      simp only [hmi, hload] at hm
      exact hm

theorem exportSegs_append (heFolder ext tag : List Char)
    (volumes : List SceneVolume)
    (dimsOf : List Char → Option (Nat × Nat))
    (l1 l2 : List SegNodeM) :
    exportSegs heFolder ext tag volumes dimsOf (l1 ++ l2) =
      ((exportSegs heFolder ext tag volumes dimsOf l1).1 ++
        (exportSegs heFolder ext tag volumes dimsOf l2).1,
       (exportSegs heFolder ext tag volumes dimsOf l1).2 ++
        (exportSegs heFolder ext tag volumes dimsOf l2).2) := by
  induction l1 with
  | nil => simp [exportSegs]
  | cons sn rest ih =>
    show exportSegs _ _ _ _ _ (sn :: (rest ++ l2)) = _
    rw [exportSegs, ih, exportSegs]
    simp

/-! ## Claim C5 -/
/-- C5, counterexample: the claim says a tile whose class-mask file is
absent causes a warning; the code's mask branch never warns — it
silently appends an all-zero mask.  With one class `"k"`, one loadable
tile `"a"` and an empty mask index, the phase-1 loop substitutes the
zero mask and produces an *empty* warning trace. -/
theorem c5_mask_warning_counterexample :
    ((fun _ _ => none : List Char → List Char → Option (List Char))
        ['k'] ['a'] = none) ∧
    (loadCaseTiles [] [] [['k']] (fun _ => some (.d2 [[1]]))
        (fun _ => none) (fun _ _ => none) [['a']]).1 =
      [(.d2 [[1]], ['a'], [(['k'], zerosArr (.d2 [[1]]))])] ∧
    (loadCaseTiles [] [] [['k']] (fun _ => some (.d2 [[1]]))
        (fun _ => none) (fun _ _ => none) [['a']]).2 = [] :=
  ⟨rfl, rfl, rfl⟩

/-- C5 (amended): unmatched tiles and masks are best-effort and never
fatal: (a) an image tile that fails to load is skipped with a warning
while the tiles before and after it are processed normally; (b) the
only warnings of the tile loop are image-load failures; (c) a tile
whose class-mask file is absent from the index, or fails to load, gets
an all-zero mask of the image's shape substituted *silently*, and a
loadable mask is binarized; (d) once the root checks pass, the batch
main returns normally for any loader outcomes; (e) a segmentation with
no matching HE volume is skipped with a warning, as is (f) one whose
volume description parses to an empty mapping; (g) the remaining
segmentations are still processed; and (h) once its path checks pass,
the export main returns normally. -/
theorem c5_unmatched_best_effort :
    (∀ (ext imgPre : List Char) (classDirs : List (List Char))
      (loadImage loadMaskRaw : List Char → Option NpArr)
      (maskIndex : List Char → List Char → Option (List Char))
      (pre post : List (List Char)) (bad : List Char),
      loadImage bad = none →
      loadCaseTiles ext imgPre classDirs loadImage loadMaskRaw maskIndex
          (pre ++ bad :: post) =
        ((loadCaseTiles ext imgPre classDirs loadImage loadMaskRaw
            maskIndex pre).1 ++
          (loadCaseTiles ext imgPre classDirs loadImage loadMaskRaw
            maskIndex post).1,
         (loadCaseTiles ext imgPre classDirs loadImage loadMaskRaw
            maskIndex pre).2 ++
          .warnImageLoadFailed bad ::
            (loadCaseTiles ext imgPre classDirs loadImage loadMaskRaw
              maskIndex post).2)) ∧
    (∀ (ext imgPre : List Char) (classDirs : List (List Char))
      (loadImage loadMaskRaw : List Char → Option NpArr)
      (maskIndex : List Char → List Char → Option (List Char))
      (files : List (List Char)),
      ∀ e ∈ (loadCaseTiles ext imgPre classDirs loadImage loadMaskRaw
          maskIndex files).2,
        ∃ nm, nm ∈ files ∧ e = .warnImageLoadFailed nm ∧
          loadImage nm = none) ∧
    (∀ (ext imgPre : List Char) (classDirs : List (List Char))
      (loadImage loadMaskRaw : List Char → Option NpArr)
      (maskIndex : List Char → List Char → Option (List Char))
      (nm : List Char) (img : NpArr) (stem : List Char)
      (masks : List (List Char × NpArr)),
      processTile ext imgPre classDirs loadImage loadMaskRaw maskIndex
          nm = some (img, stem, masks) →
      ∀ cn ∈ classDirs,
        (maskIndex cn (nm.drop imgPre.length) = none →
          (cn, zerosArr img) ∈ masks) ∧
        (∀ mp, maskIndex cn (nm.drop imgPre.length) = some mp →
          loadMaskRaw mp = none → (cn, zerosArr img) ∈ masks) ∧
        (∀ mp raw, maskIndex cn (nm.drop imgPre.length) = some mp →
          loadMaskRaw mp = some raw →
          (cn, binarize_mask_array raw) ∈ masks)) ∧
    (∀ (ext heFolder : List Char)
      (loadImage loadMaskRaw : List Char → Option NpArr)
      (fsIndex : List Char → List Char → List Char →
        Option (List Char))
      (cases : List CaseInput), cases ≠ [] →
      ∃ r, batchMain true ext heFolder loadImage loadMaskRaw fsIndex
        cases = .ok r) ∧
    (∀ (heFolder ext tag : List Char) (volumes : List SceneVolume)
      (dimsOf : List Char → Option (Nat × Nat)) (seg : SegNodeM),
      (volumes.find? fun v => v.name == segVolName seg) = none →
      processSegNode heFolder ext tag volumes dimsOf seg =
        ([], segBadEvs seg ++
          [.warnNoVolume (segVolName seg) seg.name])) ∧
    (∀ (heFolder ext tag : List Char) (volumes : List SceneVolume)
      (dimsOf : List Char → Option (Nat × Nat)) (seg : SegNodeM)
      (vol : SceneVolume),
      (volumes.find? fun v => v.name == segVolName seg) = some vol →
      parse_tile_mapping vol.descr = [] →
      processSegNode heFolder ext tag volumes dimsOf seg =
        ([], segBadEvs seg ++ [.warnNoMapping (segVolName seg)])) ∧
    (∀ (heFolder ext tag : List Char) (volumes : List SceneVolume)
      (dimsOf : List Char → Option (Nat × Nat))
      (l1 l2 : List SegNodeM),
      exportSegs heFolder ext tag volumes dimsOf (l1 ++ l2) =
        ((exportSegs heFolder ext tag volumes dimsOf l1).1 ++
          (exportSegs heFolder ext tag volumes dimsOf l2).1,
         (exportSegs heFolder ext tag volumes dimsOf l1).2 ++
          (exportSegs heFolder ext tag volumes dimsOf l2).2)) ∧
    (∀ (heFolder ext tag : List Char) (segNodes : List SegNodeM)
      (volumes : List SceneVolume)
      (dimsOf : List Char → Option (Nat × Nat)),
      ∃ r, exportMain true true heFolder ext tag segNodes volumes
        dimsOf = .ok r) := by
  refine ⟨?_, loadCaseTiles_events, processTile_masks, ?_, ?_, ?_,
    exportSegs_append, ?_⟩
  · intro ext imgPre classDirs loadImage loadMaskRaw maskIndex pre post
      bad hbad
    rw [loadCaseTiles_append ext imgPre classDirs loadImage loadMaskRaw
      maskIndex pre (bad :: post)]
    rw [loadCaseTiles_cons_fail ext imgPre classDirs loadImage
      loadMaskRaw maskIndex bad post hbad]
  · intro ext heFolder loadImage loadMaskRaw fsIndex cases hne
    refine ⟨batchCases ext heFolder loadImage loadMaskRaw fsIndex cases,
      ?_⟩
    unfold batchMain
    rw [if_neg (by simp)]
    rw [if_neg (by simpa using hne)]
  · intro heFolder ext tag volumes dimsOf seg hfind
    unfold processSegNode
    rw [hfind]
  · intro heFolder ext tag volumes dimsOf seg vol hfind hparse
    unfold processSegNode
    rw [hfind]
    simp only [hparse]
    rw [if_pos trivial]
  · intro heFolder ext tag segNodes volumes dimsOf
    unfold exportMain
    rw [if_neg (by simp), if_neg (by simp)]
    by_cases hseg : segNodes.isEmpty = true
    · rw [if_pos hseg]
      exact ⟨_, rfl⟩
    · rw [if_neg hseg]
      exact ⟨_, rfl⟩

/-- Witness for C5 (amended) at concrete inputs: a failing image tile
between two loadable ones, a non-empty case list, and a segmentation
node with no matching volume. -/
theorem c5_unmatched_best_effort_witness :
    ((fun _ => none : List Char → Option NpArr) ['b'] = none ∧
      ([⟨['c'], [], []⟩] : List CaseInput) ≠ [] ∧
      (List.find? (fun v => v.name ==
          segVolName ⟨['s'], []⟩) ([] : List SceneVolume)) = none) ∧
    loadCaseTiles [] [] [] (fun _ => none) (fun _ => none)
        (fun _ _ => none) ([] ++ ['b'] :: []) =
      ((loadCaseTiles [] [] [] (fun _ => none) (fun _ => none)
          (fun _ _ => none) []).1 ++
        (loadCaseTiles [] [] [] (fun _ => none) (fun _ => none)
          (fun _ _ => none) []).1,
       (loadCaseTiles [] [] [] (fun _ => none) (fun _ => none)
          (fun _ _ => none) []).2 ++
        .warnImageLoadFailed ['b'] ::
          (loadCaseTiles [] [] [] (fun _ => none) (fun _ => none)
            (fun _ _ => none) []).2) ∧
    (∃ r, batchMain true [] [] (fun _ => none) (fun _ => none)
      (fun _ _ _ => none) [⟨['c'], [], []⟩] = .ok r) ∧
    processSegNode [] [] [] [] (fun _ => none) ⟨['s'], []⟩ =
      ([], segBadEvs ⟨['s'], []⟩ ++
        [.warnNoVolume (segVolName ⟨['s'], []⟩) ['s']]) :=
  ⟨⟨rfl, by simp, rfl⟩,
    c5_unmatched_best_effort.1 [] [] [] (fun _ => none) (fun _ => none)
      (fun _ _ => none) [] [] ['b'] rfl,
    c5_unmatched_best_effort.2.2.2.1 [] [] (fun _ => none)
      (fun _ => none) (fun _ _ _ => none) [⟨['c'], [], []⟩] (by simp),
    c5_unmatched_best_effort.2.2.2.2.1 [] [] [] [] (fun _ => none)
      ⟨['s'], []⟩ rfl⟩

end DataCollection
